import Mathlib

/-!
Verification of the veriloggen Thread-to-FSM compiler
(src/veriloggen/thread/thread.py) against its specification.

The compiler consumes a restricted Python AST and lowers it into an
integer-state FSM: statements allocate FSM states, control flow becomes
conditional gotos, and register assignments are attached to states.

Shallow embedding conventions:
* `Expr` / `Stmt` / `Targ` mirror the accepted AST subset (spec section 6.1).
* `IR` mirrors the RTL expression nodes of `vtypes` that the compiler
  constructs (`Int`, `Str`, registers, operator nodes, `Cond`).  `PyVal`
  is the type of values produced by `CompileVisitor.visit` on expression
  nodes: an IR node, a compile-time tuple, a `SystemTask` value, or
  Python `None` (returned by a skipped `visit_Call`).
* The scope frame list (`thread/scope.py` is not under src/; its
  operations are modelled from spec sections 3 and 4.1) and the FSM
  primitive (`fsm/fsm.py` is not under src/; modelled from spec
  sections 4.3 and 6.2) are explicit record types.
* Fallible lowering returns `Except CompErr`, with one constructor per
  Python exception kind the code can raise.
* The visitor functions take a fuel argument because eager inlining of
  a directly recursive function diverges in the original (spec
  section 9, open question).  Fuel is decremented on every recursive
  visit; exhaustion is the distinguished error `CompErr.outOfFuel`,
  never confused with an error the Python code raises.
* The intrinsic registries and the captured local environment
  (`local_objects`) are instantiated empty: `CompileVisitor` receives
  them as constructor arguments and no claim depends on a non-empty
  registry.  `getGlobalObject` (thread.py lines 935-940) always returns
  `None` in the source and is modelled accordingly.
-/

/-- AST binary operator kinds consumed by the compiler
(`ast.Add`, `ast.Sub`, ... in the source). -/
inductive AstOp where
  | add | sub | mult | div | floorDiv | modOp | pow
  | lshift | rshift | bitOr | bitXor | bitAnd
  | matMult
deriving DecidableEq, Repr

/-- AST unary operator kinds. -/
inductive AstUOp where
  | uAdd | uSub | invert | notOp
deriving DecidableEq, Repr

/-- AST boolean operator kinds. -/
inductive AstBoolOp where
  | andOp | orOp
deriving DecidableEq, Repr

/-- AST comparison operator kinds. -/
inductive AstCmpOp where
  | eqC | notEqC | ltC | leC | gtC | geC | isC | isNotC | inC | notInC
deriving DecidableEq, Repr

/-- Veriloggen (vtypes) binary operator constructors; the codomain of the
operator table (spec section 4.2). -/
inductive VOp where
  | plus | minus | times | divide | intDivide | modV | power
  | sll | srl | orV | xorV | andV
  | land | lor
  | eqV | notEqV | lessThan | lessEq | greaterThan | greaterEq
deriving DecidableEq, Repr

/-- Veriloggen unary operator constructors. -/
inductive VUOp where
  | uplus | uminus | unot | ulnot
deriving DecidableEq, Repr

/-- Modelled from the spec: the operator table (`thread/operator.py`,
`getVeriloggenOp`, is not under src/).  Spec section 4.2: a closed mapping
from AST operator kinds to RTL constructors; unsupported operator maps to
nothing (the caller raises).  `ast.MatMult` has no RTL counterpart. -/
def getVeriloggenOp : AstOp → Option VOp
  | .add => some .plus
  | .sub => some .minus
  | .mult => some .times
  | .div => some .divide
  | .floorDiv => some .intDivide
  | .modOp => some .modV
  | .pow => some .power
  | .lshift => some .sll
  | .rshift => some .srl
  | .bitOr => some .orV
  | .bitXor => some .xorV
  | .bitAnd => some .andV
  | .matMult => none

/-- Modelled from the spec: operator table, unary part (spec section 4.2). -/
def getVeriloggenUOp : AstUOp → Option VUOp
  | .uAdd => some .uplus
  | .uSub => some .uminus
  | .invert => some .unot
  | .notOp => some .ulnot

/-- Modelled from the spec: operator table, boolean part (spec section 4.2):
`and`, `or` map to `Land`, `Lor`. -/
def getVeriloggenBoolOp : AstBoolOp → Option VOp
  | .andOp => some .land
  | .orOp => some .lor

/-- Modelled from the spec: operator table, comparison part (spec
section 4.2): `is` / `is not` alias `==` / `!=`; `in` / `not in` have no
mapping. -/
def getVeriloggenCmpOp : AstCmpOp → Option VOp
  | .eqC => some .eqV
  | .notEqC => some .notEqV
  | .ltC => some .lessThan
  | .leC => some .lessEq
  | .gtC => some .greaterThan
  | .geC => some .greaterEq
  | .isC => some .eqV
  | .isNotC => some .notEqV
  | .inC => none
  | .notInC => none

/-- IR expression nodes built by the compiler (the `vtypes` nodes it
constructs: `Int`, `Str`, registers created by `m.Reg`, operator
applications, `Cond`).  `vtypes` is external to the core (spec
section 1); only the node shapes the compiler creates are modelled. -/
inductive IR where
  | intIR (n : Int)
  | strIR (sVal : String)
  | reg (rname : String)
  | bin (op : VOp) (left right : IR)
  | un (op : VUOp) (e : IR)
  | condIR (c t e : IR)
deriving DecidableEq, Repr

/-- Values produced by `CompileVisitor.visit` on expression nodes: an IR
node, a compile-time tuple (spec section 4.5: tuple/list literals produce
a tuple of values at compile time), a `SystemTask` node (built by print
lowering), or Python `None` (result of a skipped `visit_Call`). -/
inductive PyVal where
  | ir (v : IR)
  | tup (vs : List PyVal)
  | systaskV (tname : String) (args : List PyVal)
  | pynone

/-- Is the value an IR string literal (`isinstance(x, vtypes.Str)`)? -/
def PyVal.isStr : PyVal → Bool
  | .ir (.strIR _) => true
  | _ => false

/-- Modelled from the spec: `vtypes.numerical_types` membership (vtypes is
not under src/).  Spec section 3 divides IR nodes into numerical nodes
(combinable with RTL arithmetic) and string literals; compile-time tuples
and `None` are not IR values at all.  `SystemTask` results are treated as
numerical, which no lowering path observes. -/
def PyVal.isNumerical : PyVal → Bool
  | .ir (.strIR _) => false
  | .ir _ => true
  | .systaskV _ _ => true
  | .tup _ => false
  | .pynone => false

/-- Extract the underlying IR node of a value.  The source passes visit
results straight into `vtypes` constructors; a tuple or `None` in such a
position is malformed and surfaces as an error here. -/
def PyVal.asIR : PyVal → Except Unit IR
  | .ir v => .ok v
  | _ => .error ()

/-- Register name of a bind target (`var.name` in `setBind`); the target
is always a register or `None` in the source. -/
def IR.regName : IR → Option String
  | .reg n => some n
  | _ => none

/-- Assignment targets as walked by `TargetVisitor` (thread.py lines
224-233): names, and tuples/lists of targets.  Lists behave exactly like
tuples there, so one constructor covers both. -/
inductive Targ where
  | nameT (id : String)
  | tupT (elts : List Targ)

/-- Expression AST nodes accepted by the compiler (spec section 6.1).
Call arguments: positional and keyword; the callee is a name (attribute
calls resolve host objects via reflection and are outside the embedded
fragment; no claim concerns them). -/
inductive Expr where
  | num (n : Int)
  | strL (sVal : String)
  | nameL (id : String)
  | unaryOp (op : AstUOp) (operand : Expr)
  | binOp (op : AstOp) (left right : Expr)
  | boolOp (op : AstBoolOp) (values : List Expr)
  | compare (left : Expr) (ops : List AstCmpOp) (comparators : List Expr)
  | ifExp (test body orelse : Expr)
  | tupleE (elts : List Expr)
  | listE (elts : List Expr)
  | call (funcName : String) (args : List Expr) (keywords : List (String × Expr))

/-- Statement AST nodes accepted by the compiler (spec section 6.1).
`funcDefS` carries the function name, parameter names, default value
expressions and body (the fields of `tree.args` the source reads). -/
inductive Stmt where
  | assignS (targets : List Targ) (value : Expr)
  | augAssignS (target : String) (op : AstOp) (value : Expr)
  | ifS (test : Expr) (body orelse : List Stmt)
  | whileS (test : Expr) (body : List Stmt)
  | forS (target : String) (iter : Expr) (body : List Stmt)
  | funcDefS (fname : String) (params : List String) (defaults : List Expr)
      (body : List Stmt)
  | returnS (value : Option Expr)
  | breakS
  | continueS
  | passS
  | nonlocalS (names : List String)
  | globalS (names : List String)
  | printS (values : List Expr)
  | exprS (value : Expr)

/-- A function table entry: parameter names, default expressions, body
(what `getFunction` returns and `_call_Name_function` consumes). -/
abbrev FuncDef := List String × List Expr × List Stmt

/-- An FSM transition recorded by `goto_from(src, dst, cond, else_dst)`
(spec section 6.2). -/
structure Transition where
  src : Nat
  dst : Nat
  cond : Option IR
  elseDst : Option Nat
deriving DecidableEq, Repr

/-- A bind record: `(state, variable_name, value, guard)` appended every
time the compiler emits a register assignment (spec section 3, bind
record; `setBind` also calls `fsm._add_statement` with the same data, so
one log models both). -/
structure BindRec where
  state : Nat
  vname : Option String
  value : PyVal
  cond : Option IR

/-- Modelled from the spec: the FSM primitive state visible to the
compiler (`fsm/fsm.py` is not under src/; spec sections 4.3 and 6.2):
the current state counter, the recorded transitions, and the recorded
per-state statements. -/
structure FSMState where
  current : Nat
  transitions : List Transition
  binds : List BindRec

/-- Modelled from the spec: one scope frame (spec section 3): local
variable bindings, locally defined functions, nonlocal/global name sets,
the per-frame unresolved break / continue / return lists, and the lazy
return-variable slot.  `isCall` marks a frame pushed with
`ftype = "call"` (a function boundary). -/
structure Frame where
  isCall : Bool
  vars : List (String × PyVal)
  funcs : List (String × FuncDef)
  nonlocals : List String
  globals : List String
  breaks : List Nat
  conts : List Nat
  rets : List (Nat × Option PyVal)
  retvar : Option PyVal

/-- A fresh block frame (`pushScope()` with no ftype). -/
def Frame.emptyBlock : Frame := ⟨false, [], [], [], [], [], [], [], none⟩

/-- A fresh call frame (`pushScope(ftype='call')`). -/
def Frame.emptyCall : Frame := ⟨true, [], [], [], [], [], [], [], none⟩

/-- The whole compile-time state of a `CompileVisitor`: the FSM being
programmed, the scope frame list (head frame is the current one), the
global unique-name counter (`_tmp_count`), the registers declared so far
on the module (name, width, initval), the loop-descriptor table, and the
configuration (thread name, default data width). -/
structure CState where
  fsm : FSMState
  scope : List Frame
  tmpCount : Nat
  regs : List (String × Nat × Int)
  loopInfo : List ((Nat × Nat) × (Option IR × Option IR))
  threadName : String
  datawidth : Nat

namespace CState

/-- `_tmp_name(prefix)` (thread.py lines 25-30): returns
`prefix + "_" + str(counter)` and increments the process-wide counter. -/
def tmpNameS (s : CState) (pfx : String) : String × CState :=
  (pfx ++ "_" ++ toString s.tmpCount, { s with tmpCount := s.tmpCount + 1 })

/-- `incFsmCount` (thread.py line 1003): `fsm.inc()` allocates the next
state. -/
def incFsm (s : CState) : CState :=
  { s with fsm := { s.fsm with current := s.fsm.current + 1 } }

/-- `getFsmCount` (thread.py line 1006): the FSM's current state. -/
def getFsmCount (s : CState) : Nat := s.fsm.current

/-- `setFsm(src, dst, cond, else_dst)` (thread.py lines 996-1001):
defaults `src` to the current state and `dst` to `src + 1`, then records
the transition via `fsm.goto_from`. -/
def setFsmT (s : CState) (src? dst? : Option Nat) (cond : Option IR)
    (elseDst : Option Nat) : CState :=
  let src := src?.getD s.fsm.current
  let dst := dst?.getD (src + 1)
  { s with fsm := { s.fsm with transitions := s.fsm.transitions ++ [⟨src, dst, cond, elseDst⟩] } }

/-- `setFsmLoop` (thread.py lines 1010-1011): record a loop descriptor. -/
def setFsmLoop (s : CState) (b e : Nat) (iterN stepN : Option IR) : CState :=
  { s with loopInfo := s.loopInfo ++ [((b, e), (iterN, stepN))] }

/-- `pushScope(name, ftype)` (thread.py lines 1025-1026); modelled from
the spec (section 4.1): append a new frame; `ftype = "call"` marks a
function boundary. -/
def pushScope (isCall : Bool) (s : CState) : CState :=
  { s with scope := (if isCall then Frame.emptyCall else Frame.emptyBlock) :: s.scope }

/-- `popScope` (thread.py lines 1028-1029); modelled from the spec
(section 4.1): remove the top frame. -/
def popScope (s : CState) : CState :=
  { s with scope := s.scope.tail }

end CState

/-- Modelled from the spec: index of the innermost frame marked `"call"`
(spec sections 3 and 4.1: unresolved break/continue/return lists and the
return-variable slot are owned by the function boundary frame, not by
inner block frames).  Equals the list length when no call frame exists. -/
def callIdx (fs : List Frame) : Nat := fs.findIdx (·.isCall)

/-- Modelled from the spec: the innermost call frame, if any. -/
def innermostCall : List Frame → Option Frame
  | [] => none
  | fr :: rest => if fr.isCall then some fr else innermostCall rest

/-- Modelled from the spec: rewrite the innermost call frame in place
(all patch-list and return-variable updates land there). -/
def modifyInnermostCall (g : Frame → Frame) : List Frame → List Frame
  | [] => []
  | fr :: rest =>
      if fr.isCall then g fr :: rest else fr :: modifyInnermostCall g rest

/-- Modelled from the spec: `searchVariable(name, store)` (spec
section 4.1): walk frames inner to outer consulting local bindings.  A
store-context search does not look past the innermost function boundary
(so binding a parameter or assigning inside an inlined call never
resolves to an outer function's register), matching how
`_call_Name_function` uses `store=True` to detect parameters "not
defined yet" (thread.py lines 607-609). -/
def searchVariableL (fs : List Frame) (nm : String) (store : Bool) : Option PyVal :=
  match fs with
  | [] => none
  | fr :: rest =>
      match fr.vars.lookup nm with
      | some v => some v
      | none => if store && fr.isCall then none else searchVariableL rest nm store

/-- Modelled from the spec: `searchFunction` walks frames inner to outer
consulting locally registered function definitions. -/
def searchFunctionL (fs : List Frame) (nm : String) : Option FuncDef :=
  match fs with
  | [] => none
  | fr :: rest =>
      match fr.funcs.lookup nm with
      | some fd => some fd
      | none => searchFunctionL rest nm

namespace CState

/-- Modelled from the spec: `addVariable` binds into the top frame (the
nonlocal/global redirection of spec section 4.1 is not exercised by any
claim; the name sets are still recorded). -/
def addVariableS (s : CState) (nm : String) (v : PyVal) : CState :=
  match s.scope with
  | [] => s
  | fr :: rest => { s with scope := { fr with vars := (nm, v) :: fr.vars } :: rest }

/-- Modelled from the spec: `addFunction` registers a function definition
in the top frame. -/
def addFunctionS (s : CState) (nm : String) (fd : FuncDef) : CState :=
  match s.scope with
  | [] => s
  | fr :: rest => { s with scope := { fr with funcs := (nm, fd) :: fr.funcs } :: rest }

/-- `addNonlocal` (thread.py lines 942-943). -/
def addNonlocalS (s : CState) (nm : String) : CState :=
  match s.scope with
  | [] => s
  | fr :: rest => { s with scope := { fr with nonlocals := nm :: fr.nonlocals } :: rest }

/-- `addGlobal` (thread.py lines 945-946). -/
def addGlobalS (s : CState) (nm : String) : CState :=
  match s.scope with
  | [] => s
  | fr :: rest => { s with scope := { fr with globals := nm :: fr.globals } :: rest }

/-- `addBreak` (thread.py lines 1032-1034): record the current state in
the owning frame's unresolved-break list. -/
def addBreakS (s : CState) : CState :=
  let g : Frame → Frame := fun fr => { fr with breaks := fr.breaks ++ [s.fsm.current] }
  { s with scope := modifyInnermostCall g s.scope }

/-- `addContinue` (thread.py lines 1036-1038). -/
def addContinueS (s : CState) : CState :=
  let g : Frame → Frame := fun fr => { fr with conts := fr.conts ++ [s.fsm.current] }
  { s with scope := modifyInnermostCall g s.scope }

/-- `addReturn` (thread.py lines 1040-1042): record the current state and
the returned value. -/
def addReturnS (s : CState) (v : Option PyVal) : CState :=
  let g : Frame → Frame := fun fr => { fr with rets := fr.rets ++ [(s.fsm.current, v)] }
  { s with scope := modifyInnermostCall g s.scope }

/-- `hasBreak` (thread.py lines 1044-1045). -/
def hasBreakS (s : CState) : Bool :=
  match innermostCall s.scope with
  | some fr => !fr.breaks.isEmpty
  | none => false

/-- `hasContinue` (thread.py lines 1047-1048). -/
def hasContinueS (s : CState) : Bool :=
  match innermostCall s.scope with
  | some fr => !fr.conts.isEmpty
  | none => false

/-- `hasReturn` (thread.py lines 1050-1051). -/
def hasReturnS (s : CState) : Bool :=
  match innermostCall s.scope with
  | some fr => !fr.rets.isEmpty
  | none => false

/-- `getUnresolvedBreak` (thread.py lines 1053-1054). -/
def getUnresolvedBreakS (s : CState) : List Nat :=
  match innermostCall s.scope with
  | some fr => fr.breaks
  | none => []

/-- `getUnresolvedContinue` (thread.py lines 1056-1057). -/
def getUnresolvedContinueS (s : CState) : List Nat :=
  match innermostCall s.scope with
  | some fr => fr.conts
  | none => []

/-- `getUnresolvedReturn` (thread.py lines 1059-1060). -/
def getUnresolvedReturnS (s : CState) : List (Nat × Option PyVal) :=
  match innermostCall s.scope with
  | some fr => fr.rets
  | none => []

/-- `setReturnVariable` (thread.py lines 1062-1063). -/
def setReturnVariableS (s : CState) (v : PyVal) : CState :=
  { s with scope := modifyInnermostCall (fun fr => { fr with retvar := some v }) s.scope }

/-- `getReturnVariable` (thread.py lines 1065-1066). -/
def getReturnVariableS (s : CState) : Option PyVal :=
  match innermostCall s.scope with
  | some fr => fr.retvar
  | none => none

/-- `clearBreak` (thread.py lines 1068-1069). -/
def clearBreakS (s : CState) : CState :=
  { s with scope := modifyInnermostCall (fun fr => { fr with breaks := [] }) s.scope }

/-- `clearContinue` (thread.py lines 1071-1072). -/
def clearContinueS (s : CState) : CState :=
  { s with scope := modifyInnermostCall (fun fr => { fr with conts := [] }) s.scope }

/-- `clearReturn` (thread.py lines 1074-1075). -/
def clearReturnS (s : CState) : CState :=
  { s with scope := modifyInnermostCall (fun fr => { fr with rets := [] }) s.scope }

/-- `clearReturnVariable` (thread.py lines 1077-1078). -/
def clearReturnVariableS (s : CState) : CState :=
  { s with scope := modifyInnermostCall (fun fr => { fr with retvar := none }) s.scope }

/-- `skip` (thread.py lines 905-907): any outstanding break, continue or
return in the owning frame suppresses further statements. -/
def skipS (s : CState) : Bool :=
  s.hasBreakS || s.hasContinueS || s.hasReturnS

/-- `setBind(var, value, cond)` (thread.py lines 983-993): attach the
register assignment to the current state and append the bind record. -/
def setBindS (s : CState) (var : Option IR) (value : PyVal) (cond : Option IR) : CState :=
  let cond := if var.isNone then none else cond
  let vname := var.bind IR.regName
  { s with fsm := { s.fsm with binds := s.fsm.binds ++ [⟨s.fsm.current, vname, value, cond⟩] } }

/-- `makeVariable(name)` (thread.py lines 909-913): generate the unique
register name `_thread_<thread>_<name>_<uniq>` and declare a register of
the default data width with initval 0. -/
def makeVariableS (s : CState) (nm : String) : IR × CState :=
  let (signame, s₁) := s.tmpNameS ("_thread_" ++ s.threadName ++ "_" ++ nm)
  (.reg signame, { s₁ with regs := s₁.regs ++ [(signame, s₁.datawidth, 0)] })

/-- `getVariable(name, store)` (thread.py lines 915-928).  The captured
local environment is empty in this instantiation and `getGlobalObject`
always returns `None` in the source, so an unresolved load raises
`NameError`. -/
def getVariableS (s : CState) (nm : String) (store : Bool) :
    Option (PyVal × CState) :=
  match searchVariableL s.scope nm store with
  | some v => some (v, s)
  | none =>
      if !store then none
      else
        let (rg, s₁) := s.makeVariableS nm
        let s₂ := s₁.addVariableS nm (.ir rg)
        match searchVariableL s₂.scope nm false with
        | some v => some (v, s₂)
        | none => some (.ir rg, s₂)

/-- `getTmpVariable` (thread.py lines 930-933): a fresh `tmp_<n>` name
allocated as a store-context variable. -/
def getTmpVariableS (s : CState) : PyVal × CState :=
  let (nm, s₁) := s.tmpNameS "tmp"
  match s₁.getVariableS nm true with
  | some r => r
  | none => (.pynone, s₁)

/-- `getFunction(name)` (thread.py lines 948-961): search the scope for a
registered definition; the implicit reflection fallback over
`local_objects` is empty in this instantiation. -/
def getFunctionS (s : CState) (nm : String) : Option FuncDef :=
  searchFunctionL s.scope nm

end CState

/-- Compile-time errors: one constructor per Python exception kind the
lowering can raise (spec section 7), plus the distinguished
fuel-exhaustion marker of the embedding (eager inlining of a directly
recursive function diverges in the original; spec section 9). -/
inductive CompErr where
  | typeError (msg : String)
  | valueError (msg : String)
  | nameError (msg : String)
  | notImplementedError (msg : String)
  | indexError
  | outOfFuel
deriving DecidableEq, Repr

/-- `setArgBind(name, value)` (thread.py lines 963-970): a non-numerical
value is bound directly into the scope; a numerical value is stored into
a (possibly fresh) register with a bind record. -/
def setArgBind (s : CState) (nm : String) (value : PyVal) : CState :=
  if !value.isNumerical then s.addVariableS nm value
  else
    match s.getVariableS nm true with
    | some (left, s₁) =>
        match left with
        | .ir lv => s₁.setBindS (some lv) value none
        | _ => s₁.setBindS none value none
    | none => s

/-- `setAssignBind(dst, var, value)` (thread.py lines 972-981). -/
def setAssignBind (s : CState) (dst : Targ) (var : PyVal) (value : PyVal) :
    Except CompErr CState :=
  if !value.isNumerical then
    match dst with
    | .nameT nm => .ok (s.addVariableS nm value)
    | .tupT _ =>
        .error (.typeError "object binding without destination is not supported")
  else
    match var with
    | .ir v => .ok (s.setBindS (some v) value none)
    | _ => .error (.typeError "assignment target is not a register")

mutual

/-- `_assign(raw_left, left, right)` (thread.py lines 293-317): tuple
targets require matching arity; a non-tuple right-hand side with more
than one destination raises (in the source the `ValueError` message
formatting itself crashes with `TypeError` because `len(right)` is called
on a non-sized IR value — either way an error escapes, modelled as
`typeError`). -/
def theAssign (s : CState) (rawLeft : Targ) (left : PyVal) (right : PyVal) :
    Except CompErr CState :=
  let rawDsts : List Targ := match rawLeft with | .tupT ts => ts | t => [t]
  let dsts : List PyVal := match left with | .tup vs => vs | v => [v]
  match right with
  | .tup rs =>
      if dsts.length = 1 then
        match rawDsts.head?, dsts.head? with
        | some rd, some d => setAssignBind s rd d right
        | _, _ => .error .indexError
      else if dsts.length < rs.length then
        .error (.valueError ("too many values to unpack (expected " ++
          toString rs.length ++ ")"))
      else if dsts.length > rs.length then
        .error (.valueError ("not enough values to unpack (expected " ++
          toString dsts.length ++ ", got " ++ toString rs.length ++ ")"))
      else theAssignZip s rawDsts dsts rs
  | r =>
      if dsts.length > 1 then
        .error (.typeError "object of type IR value has no len")
      else
        match rawDsts.head?, dsts.head? with
        | some rd, some d => setAssignBind s rd d r
        | _, _ => .error .indexError

/-- The elementwise recursion of `_assign` over
`zip(raw_dsts, dsts, right)`. -/
def theAssignZip (s : CState) (rawDsts : List Targ) (dsts : List PyVal)
    (rs : List PyVal) : Except CompErr CState :=
  match rawDsts, dsts, rs with
  | rd :: rds, d :: ds, r :: rrs =>
      match theAssign s rd d r with
      | .ok s₁ => theAssignZip s₁ rds ds rrs
      | .error err => .error err
  | _, _, _ => .ok s

end

/-- `_string_operation_plus(left, right)` (thread.py lines 791-794):
requires two string literals and concatenates their payloads. -/
def stringOperationPlus (left right : PyVal) : Except CompErr PyVal :=
  match left, right with
  | .ir (.strIR a), .ir (.strIR b) => .ok (.ir (.strIR (a ++ b)))
  | _, _ => .error (.typeError "plus operation requires two string arguments")

/-- The operator stage of `visit_BinOp` (thread.py lines 778-789), applied
after both operands have been lowered: unsupported operator raises; a
string operand demands the `+` operator and two strings; otherwise the
mapped IR operator node is built. -/
def binOpCombine (op : AstOp) (left right : PyVal) : Except CompErr PyVal :=
  match getVeriloggenOp op with
  | none => .error (.typeError "Unsupported BinOp")
  | some vop =>
      if left.isStr || right.isStr then
        if vop = VOp.plus then stringOperationPlus left right
        else .error (.typeError "Can not generate a corresponding node")
      else
        match left, right with
        | .ir l, .ir r => .ok (.ir (.bin vop l r))
        | _, _ => .error (.typeError "operand is not an IR value")

/-- One comparison application inside `visit_Compare` (thread.py lines
796-814): unsupported comparison operators map to nothing and the
application of `None` raises. -/
def cmpApply (op : AstCmpOp) (l r : PyVal) : Except CompErr IR :=
  match getVeriloggenCmpOp op with
  | none => .error (.typeError "NoneType object is not callable")
  | some vop =>
      match l, r with
      | .ir a, .ir b => .ok (.bin vop a b)
      | _, _ => .error (.typeError "operand is not an IR value")

/-- The pairing loop of `visit_Compare`: `op₀(left, c₀)`, then
`opᵢ(cᵢ₋₁, cᵢ)`; missing comparators raise `IndexError`. -/
def buildCmpChain (prev : PyVal) (ops : List AstCmpOp)
    (comparators : List PyVal) : Except CompErr (List IR) :=
  match ops, comparators with
  | [], _ => .ok []
  | _ :: _, [] => .error .indexError
  | op :: restOps, c :: restCs =>
      match cmpApply op prev c with
      | .ok r =>
          match buildCmpChain c restOps restCs with
          | .ok rest => .ok (r :: rest)
          | .error err => .error err
      | .error err => .error err

/-- The final fold of `visit_Compare`: a single result is returned as is,
a chain is folded left with `Land`; an empty chain leaves the Python
`None`. -/
def landFold (rslts : List IR) : PyVal :=
  match rslts with
  | [] => .pynone
  | r :: rest => .ir (rest.foldl (fun acc x => IR.bin .land acc x) r)

/-- The positional-argument loop of `_call_Name_function` (thread.py
lines 590-595): each positional argument is bound to the parameter of
the same position; a surplus positional argument indexes past
`tree.args.args` and raises `IndexError`. -/
def bindPositional (s : CState) (params : List String) (argVals : List PyVal) :
    Except CompErr CState :=
  match params, argVals with
  | _, [] => .ok s
  | [], _ :: _ => .error .indexError
  | p :: ps, v :: vs => bindPositional (setArgBind s p v) ps vs

/-- The keyword-argument loop of `_call_Name_function` (thread.py lines
597-599). -/
def bindKeywords (s : CState) (kwVals : List (String × PyVal)) : CState :=
  kwVals.foldl (fun acc kv => setArgBind acc kv.1 kv.2) s

/-- The `zip(tree.args.args[-kwargs_size:], tree.args.defaults)` pairing
of `_call_Name_function` (thread.py lines 602-604). -/
def zipDefaults (params : List String) (defaults : List Expr) :
    List (String × Expr) :=
  (params.drop (params.length - defaults.length)).zip defaults

mutual

/-- Store-context visit of an assignment target: a name resolves through
`getVariable(store=True)` (allocating on a miss), a tuple target yields
the tuple of its element targets (`visit_Name` store path and
`visit_Tuple`, thread.py lines 827-838 and 897-898). -/
def visitTarget (s : CState) (t : Targ) : Except CompErr (PyVal × CState) :=
  match t with
  | .nameT n =>
      match s.getVariableS n true with
      | some r => .ok r
      | none => .error (.nameError ("name " ++ n ++ " is not defined"))
  | .tupT ts =>
      match visitTargets s ts with
      | .ok (vs, s₁) => .ok (.tup vs, s₁)
      | .error err => .error err

/-- Store-context visit of a list of targets. -/
def visitTargets (s : CState) (ts : List Targ) :
    Except CompErr (List PyVal × CState) :=
  match ts with
  | [] => .ok ([], s)
  | t :: rest =>
      match visitTarget s t with
      | .ok (v, s₁) =>
          match visitTargets s₁ rest with
          | .ok (vs, s₂) => .ok (v :: vs, s₂)
          | .error err => .error err
      | .error err => .error err

end

/-- The per-target loop of `visit_Assign` (thread.py lines 287-288):
`_assign` runs once per raw/lowered target pair against the same
right-hand side. -/
def assignAll (s : CState) (raws : List Targ) (lefts : List PyVal)
    (right : PyVal) : Except CompErr CState :=
  match raws, lefts with
  | rd :: rds, l :: ls =>
      match theAssign s rd l right with
      | .ok s₁ => assignAll s₁ rds ls right
      | .error err => .error err
  | _, _ => .ok s

mutual

/-- Expression lowering: `CompileVisitor.visit` on expression nodes
(`visit_Num`, `visit_Str`, `visit_Name`, `visit_UnaryOp`, `visit_BinOp`,
`visit_BoolOp`, `visit_Compare`, `visit_IfExp`, `visit_Tuple`,
`visit_List`, `visit_Call`; thread.py lines 332-337, 481-507 and
755-902).  Fuel bounds the eager-inlining recursion. -/
def visitExpr (fuel : Nat) (e : Expr) (s : CState) :
    Except CompErr (PyVal × CState) :=
  match fuel with
  | 0 => .error .outOfFuel
  | f + 1 =>
    match e with
    | .num n => .ok (.ir (.intIR n), s)
    | .strL sv => .ok (.ir (.strIR sv), s)
    | .nameL id =>
        if id = "True" then .ok (.ir (.intIR 1), s)
        else if id = "False" then .ok (.ir (.intIR 0), s)
        else if id = "None" then .ok (.ir (.intIR 0), s)
        else
          match s.getVariableS id false with
          | some r => .ok r
          | none => .error (.nameError ("name " ++ id ++ " is not defined"))
    | .unaryOp op operand =>
        match visitExpr f operand s with
        | .error err => .error err
        | .ok (v, s₁) =>
            match getVeriloggenUOp op with
            | none => .error (.typeError "NoneType object is not callable")
            | some vop =>
                match v with
                | .ir x => .ok (.ir (.un vop x), s₁)
                | _ => .error (.typeError "operand is not an IR value")
    | .binOp op l r =>
        match visitExpr f l s with
        | .error err => .error err
        | .ok (lv, s₁) =>
            match visitExpr f r s₁ with
            | .error err => .error err
            | .ok (rv, s₂) =>
                match binOpCombine op lv rv with
                | .ok v => .ok (v, s₂)
                | .error err => .error err
    | .boolOp op values =>
        match getVeriloggenBoolOp op with
        | none => .error (.typeError "Unsupported BinOp")
        | some vop =>
            match values with
            | [] => .error .indexError
            | v0 :: rest =>
                match visitExpr f v0 s with
                | .error err => .error err
                | .ok (r0, s₁) => boolFoldVisit f vop rest r0 s₁
    | .compare left ops comparators =>
        match visitExpr f left s with
        | .error err => .error err
        | .ok (lv, s₁) =>
            match visitExprs f comparators s₁ with
            | .error err => .error err
            | .ok (cvs, s₂) =>
                match buildCmpChain lv ops cvs with
                | .error err => .error err
                | .ok rslts => .ok (landFold rslts, s₂)
    | .ifExp test body orelse =>
        match visitExpr f test s with
        | .error err => .error err
        | .ok (tv, s₁) =>
            match visitExpr f body s₁ with
            | .error err => .error err
            | .ok (bv, s₂) =>
                match visitExpr f orelse s₂ with
                | .error err => .error err
                | .ok (ov, s₃) =>
                    match tv, bv, ov with
                    | .ir t, .ir b, .ir o => .ok (.ir (.condIR t b o), s₃)
                    | _, _, _ => .error (.typeError "operand is not an IR value")
    | .tupleE elts =>
        match visitExprs f elts s with
        | .ok (vs, s₁) => .ok (.tup vs, s₁)
        | .error err => .error err
    | .listE elts =>
        match visitExprs f elts s with
        | .ok (vs, s₁) => .ok (.tup vs, s₁)
        | .error err => .error err
    | .call fname args kws =>
        if s.skipS then .ok (.pynone, s)
        else if fname = "print" then callNamePrint f args s
        else if fname = "int" then callNameInt f args s
        else
          match s.getFunctionS fname with
          | none => .error (.nameError ("function " ++ fname ++ " is not defined"))
          | some fd =>
              match visitExprs f args s with
              | .error err => .error err
              | .ok (argVals, s₁) =>
                  match visitKeywords f kws s₁ with
                  | .error err => .error err
                  | .ok (kwVals, s₂) => callNameFunction f fd argVals kwVals s₂

/-- Left-to-right lowering of a list of expressions (the list
comprehensions and argument loops of the source). -/
def visitExprs (fuel : Nat) (es : List Expr) (s : CState) :
    Except CompErr (List PyVal × CState) :=
  match fuel, es with
  | _, [] => .ok ([], s)
  | 0, _ => .error .outOfFuel
  | f + 1, e :: rest =>
      match visitExpr f e s with
      | .error err => .error err
      | .ok (v, s₁) =>
          match visitExprs f rest s₁ with
          | .ok (vs, s₂) => .ok (v :: vs, s₂)
          | .error err => .error err

/-- The keyword loop of `visit_Call` dispatch (thread.py lines 583-584):
each keyword value is lowered in order, keeping its name. -/
def visitKeywords (fuel : Nat) (kws : List (String × Expr)) (s : CState) :
    Except CompErr (List (String × PyVal) × CState) :=
  match fuel, kws with
  | _, [] => .ok ([], s)
  | 0, _ => .error .outOfFuel
  | f + 1, (nm, e) :: rest =>
      match visitExpr f e s with
      | .error err => .error err
      | .ok (v, s₁) =>
          match visitKeywords f rest s₁ with
          | .ok (vs, s₂) => .ok ((nm, v) :: vs, s₂)
          | .error err => .error err

/-- The fold of `visit_BoolOp` (thread.py lines 773-776). -/
def boolFoldVisit (fuel : Nat) (vop : VOp) (values : List Expr) (acc : PyVal)
    (s : CState) : Except CompErr (PyVal × CState) :=
  match fuel, values with
  | _, [] => .ok (acc, s)
  | 0, _ => .error .outOfFuel
  | f + 1, v :: rest =>
      match visitExpr f v s with
      | .error err => .error err
      | .ok (rv, s₁) =>
          match acc, rv with
          | .ir a, .ir b => boolFoldVisit f vop rest (.ir (.bin vop a b)) s₁
          | _, _ => .error (.typeError "operand is not an IR value")

/-- `_call_Name_print` (thread.py lines 509-553) and the emission part
shared with `visit_Print`: accumulate the format string and the argument
values, then bind a `SystemTask("display", ...)` to no target, emit the
fall-through transition and allocate the next state. -/
def callNamePrint (fuel : Nat) (args : List Expr) (s : CState) :
    Except CompErr (PyVal × CState) :=
  match fuel with
  | 0 => .error .outOfFuel
  | f + 1 =>
      match visitPrintArgs f args [] [] s with
      | .error err => .error err
      | .ok ((fmtList, argvalues), s₁) =>
          let stargs := PyVal.ir (.strIR (String.join fmtList.dropLast)) :: argvalues
          let right := PyVal.systaskV "display" stargs
          let s₂ := s₁.setBindS none right none
          .ok (right, (s₂.setFsmT none none none none).incFsm)

/-- The argument loop shared by `_call_Name_print` and `visit_Print`
(thread.py lines 511-538 and 843-872): a `"fmt" % (args…)` pattern is
consumed verbatim, a tuple is flattened, a string literal becomes a
substring, any other value contributes `%d` and an argument. -/
def visitPrintArgs (fuel : Nat) (args : List Expr) (fmt : List String)
    (argvalues : List PyVal) (s : CState) :
    Except CompErr ((List String × List PyVal) × CState) :=
  match fuel, args with
  | _, [] => .ok ((fmt, argvalues), s)
  | 0, _ => .error .outOfFuel
  | f + 1, arg :: rest =>
      match arg with
      | .binOp .modOp (.strL form) rhs =>
          match printBinopMod f rhs s with
          | .error err => .error err
          | .ok (values, s₁) =>
              visitPrintArgs f rest (fmt ++ [form, " "]) (argvalues ++ values) s₁
      | .tupleE elts =>
          match printTupleElts f elts fmt argvalues s with
          | .error err => .error err
          | .ok ((fmt₁, argvalues₁), s₁) => visitPrintArgs f rest fmt₁ argvalues₁ s₁
      | _ =>
          match visitExpr f arg s with
          | .error err => .error err
          | .ok (v, s₁) =>
              match v with
              | .ir (.strIR sv) =>
                  visitPrintArgs f rest (fmt ++ [sv, " "]) argvalues s₁
              | _ =>
                  visitPrintArgs f rest (fmt ++ ["%d", " "]) (argvalues ++ [v]) s₁

/-- The tuple-flattening branch of the print-argument loop. -/
def printTupleElts (fuel : Nat) (elts : List Expr) (fmt : List String)
    (argvalues : List PyVal) (s : CState) :
    Except CompErr ((List String × List PyVal) × CState) :=
  match fuel, elts with
  | _, [] => .ok ((fmt, argvalues), s)
  | 0, _ => .error .outOfFuel
  | f + 1, e :: rest =>
      match visitExpr f e s with
      | .error err => .error err
      | .ok (v, s₁) =>
          match v with
          | .ir (.strIR sv) => printTupleElts f rest (fmt ++ [sv, " "]) argvalues s₁
          | _ => printTupleElts f rest (fmt ++ ["%d", " "]) (argvalues ++ [v]) s₁

/-- `_print_binop_mod` (thread.py lines 555-563): lower the right-hand
side of a `"fmt" % args` expression into a list of values. -/
def printBinopMod (fuel : Nat) (rhs : Expr) (s : CState) :
    Except CompErr (List PyVal × CState) :=
  match fuel with
  | 0 => .error .outOfFuel
  | f + 1 =>
      match rhs with
      | .tupleE elts => visitExprs f elts s
      | .listE elts => visitExprs f elts s
      | _ =>
          match visitExpr f rhs s with
          | .ok (v, s₁) => .ok ([v], s₁)
          | .error err => .error err

/-- `_call_Name_int` (thread.py lines 565-571): more than one argument is
an explicit `TypeError`; the single argument is returned unchanged; with
no argument the source indexes an empty list and an `IndexError`
escapes. -/
def callNameInt (fuel : Nat) (args : List Expr) (s : CState) :
    Except CompErr (PyVal × CState) :=
  match fuel with
  | 0 => .error .outOfFuel
  | f + 1 =>
      if args.length > 1 then .error (.typeError "Too much arguments for int()")
      else
        match visitExprs f args s with
        | .error err => .error err
        | .ok (vals, s₁) =>
            match vals with
            | v :: _ => .ok (v, s₁)
            | [] => .error .indexError

/-- `_call_Name_function` after the argument values have been lowered
(thread.py lines 573-634; the argument lowering of lines 578-584 runs at
the dispatch site in `visitExpr` so that the inlining recursion is
bounded by fuel alone): push a `"call"` frame, bind positional then
keyword arguments then defaults of still-unbound parameters, emit one
state boundary, lower the body, patch unresolved returns to the state
following the body, clear all patch lists and the return variable, pop
the frame. -/
def callNameFunction (fuel : Nat) (fd : FuncDef) (argVals : List PyVal)
    (kwVals : List (String × PyVal)) (s : CState) :
    Except CompErr (PyVal × CState) :=
  match fuel with
  | 0 => .error .outOfFuel
  | f + 1 =>
      let s₁ := s.pushScope true
      match bindPositional s₁ fd.1 argVals with
      | .error err => .error err
      | .ok s₂ =>
          let s₃ := bindKeywords s₂ kwVals
          match bindDefaults f (zipDefaults fd.1 fd.2.1) s₃ with
          | .error err => .error err
          | .ok s₄ =>
              let s₅ := (s₄.setFsmT none none none none).incFsm
              match visitNextFunction f fd.2.2 s₅ with
              | .error err => .error err
              | .ok (ret, s₆) =>
                  let endC := s₆.getFsmCount
                  let s₇ := s₆.getUnresolvedReturnS.foldl
                    (fun acc rc => acc.setFsmT (some rc.1) (some endC) none none) s₆
                  let s₈ := s₇.clearBreakS.clearContinueS.clearReturnS.clearReturnVariableS
                  .ok (ret, s₈.popScope)

/-- The defaults loop of `_call_Name_function` (thread.py lines 602-611):
a parameter not yet bound (store-context search misses) receives its
lowered default value. -/
def bindDefaults (fuel : Nat) (prs : List (String × Expr)) (s : CState) :
    Except CompErr CState :=
  match fuel, prs with
  | _, [] => .ok s
  | 0, _ => .error .outOfFuel
  | f + 1, (pname, dflt) :: rest =>
      match searchVariableL s.scope pname true with
      | some _ => bindDefaults f rest s
      | none =>
          match visitExpr f dflt s with
          | .error err => .error err
          | .ok (v, s₁) => bindDefaults f rest (setArgBind s₁ pname v)

/-- `_visit_next_function` (thread.py lines 636-641): lower the function
body; the result is the return variable when one was allocated and
`Int(0)` otherwise. -/
def visitNextFunction (fuel : Nat) (body : List Stmt) (s : CState) :
    Except CompErr (PyVal × CState) :=
  match fuel with
  | 0 => .error .outOfFuel
  | f + 1 =>
      match visitStmts f body s with
      | .error err => .error err
      | .ok s₁ =>
          match s₁.getReturnVariableS with
          | some rv => .ok (rv, s₁)
          | none => .ok (.ir (.intIR 0), s₁)

/-- The `range(…)` argument decoding of `visit_For` (thread.py lines
421-433): no argument raises; one argument is the end with begin
`Int(0)`; the step defaults to `Int(1)` with fewer than three
arguments. -/
def lowerRangeArgs (fuel : Nat) (args : List Expr) (s : CState) :
    Except CompErr ((IR × IR × IR) × CState) :=
  match fuel with
  | 0 => .error .outOfFuel
  | f + 1 =>
      match args with
      | [] => .error (.typeError "range expects at least one argument")
      | [a] =>
          match visitExpr f a s with
          | .error err => .error err
          | .ok (ev, s₁) =>
              match ev with
              | .ir e => .ok ((.intIR 0, e, .intIR 1), s₁)
              | _ => .error (.typeError "operand is not an IR value")
      | [a, b] =>
          match visitExpr f a s with
          | .error err => .error err
          | .ok (bv, s₁) =>
              match visitExpr f b s₁ with
              | .error err => .error err
              | .ok (ev, s₂) =>
                  match bv, ev with
                  | .ir bI, .ir eI => .ok ((bI, eI, .intIR 1), s₂)
                  | _, _ => .error (.typeError "operand is not an IR value")
      | a :: b :: c :: _ =>
          match visitExpr f a s with
          | .error err => .error err
          | .ok (bv, s₁) =>
              match visitExpr f b s₁ with
              | .error err => .error err
              | .ok (ev, s₂) =>
                  match visitExpr f c s₂ with
                  | .error err => .error err
                  | .ok (cv, s₃) =>
                      match bv, ev, cv with
                      | .ir bI, .ir eI, .ir cI => .ok ((bI, eI, cI), s₃)
                      | _, _, _ => .error (.typeError "operand is not an IR value")

/-- Statement lowering: `CompileVisitor.visit` on statement nodes
(thread.py lines 275-753 and 840-887). -/
def visitStmt (fuel : Nat) (st : Stmt) (s : CState) : Except CompErr CState :=
  match fuel with
  | 0 => .error .outOfFuel
  | f + 1 =>
    match st with
    | .assignS targets value =>
        -- visit_Assign (lines 278-291)
        if s.skipS then .ok s
        else
          match visitExpr f value s with
          | .error err => .error err
          | .ok (right, s₁) =>
              match visitTargets s₁ targets with
              | .error err => .error err
              | .ok (lefts, s₂) =>
                  match assignAll s₂ targets lefts right with
                  | .error err => .error err
                  | .ok s₃ => .ok ((s₃.setFsmT none none none none).incFsm)
    | .augAssignS target op value =>
        -- visit_AugAssign (lines 319-330)
        if s.skipS then .ok s
        else
          match visitExpr f value s with
          | .error err => .error err
          | .ok (right, s₁) =>
              match s₁.getVariableS target true with
              | none => .error (.nameError ("name " ++ target ++ " is not defined"))
              | some (leftv, s₂) =>
                  match getVeriloggenOp op with
                  | none => .error (.typeError "Unsupported BinOp")
                  | some vop =>
                      match leftv, right with
                      | .ir l, .ir r =>
                          let rslt := IR.bin vop l r
                          .ok (((s₂.setBindS (some l) (.ir rslt) none).setFsmT
                            none none none none).incFsm)
                      | _, _ => .error (.typeError "operand is not an IR value")
    | .ifS test body orelse =>
        -- visit_If (lines 339-373)
        if s.skipS then .ok s
        else
          match visitExpr f test s with
          | .error err => .error err
          | .ok (tv, s₁) =>
              match tv with
              | .ir testIR =>
                  let cur := s₁.getFsmCount
                  let s₂ := s₁.incFsm
                  let trueC := s₂.getFsmCount
                  match visitStmts f body (s₂.pushScope false) with
                  | .error err => .error err
                  | .ok s₄ =>
                      let s₅ := s₄.popScope
                      let midC := s₅.getFsmCount
                      match orelse with
                      | [] => .ok (s₅.setFsmT (some cur) (some trueC)
                          (some testIR) (some midC))
                      | _ :: _ =>
                          let s₆ := s₅.incFsm
                          let falseC := s₆.getFsmCount
                          match visitStmts f orelse (s₆.pushScope false) with
                          | .error err => .error err
                          | .ok s₈ =>
                              let s₉ := s₈.popScope
                              let endC := s₉.getFsmCount
                              .ok ((s₉.setFsmT (some cur) (some trueC)
                                (some testIR) (some falseC)).setFsmT
                                (some midC) (some endC) none none)
              | _ => .error (.typeError "test is not an IR value")
    | .whileS test body =>
        -- visit_While (lines 375-411)
        if s.skipS then .ok s
        else
          match visitExpr f test s with
          | .error err => .error err
          | .ok (tv, s₁) =>
              match tv with
              | .ir testIR =>
                  let beginC := s₁.getFsmCount
                  let s₂ := s₁.incFsm
                  let bodyBegin := s₂.getFsmCount
                  match visitStmts f body (s₂.pushScope false) with
                  | .error err => .error err
                  | .ok s₄ =>
                      let s₅ := s₄.popScope
                      let bodyEnd := s₅.getFsmCount
                      let s₆ := s₅.incFsm
                      let exitC := s₆.getFsmCount
                      let s₇ := (s₆.setFsmT (some beginC) (some bodyBegin)
                        (some testIR) (some exitC)).setFsmT (some bodyEnd)
                        (some beginC) none none
                      let s₈ := s₇.getUnresolvedBreakS.foldl
                        (fun acc b => acc.setFsmT (some b) (some exitC) none none) s₇
                      let s₉ := s₈.getUnresolvedContinueS.foldl
                        (fun acc c => acc.setFsmT (some c) (some beginC) none none) s₈
                      .ok ((s₉.clearBreakS.clearContinueS).setFsmLoop
                        beginC bodyEnd none none)
              | _ => .error (.typeError "test is not an IR value")
    | .forS target iter body =>
        -- visit_For (lines 413-478): only `range(…)` iterables produce
        -- code; any other iterable falls through producing nothing.
        if s.skipS then .ok s
        else
          match iter with
          | .call fname rargs _ =>
              if fname = "range" then
                match lowerRangeArgs f rargs s with
                | .error err => .error err
                | .ok ((beginIR, endIR, stepIR), s₁) =>
                    match s₁.getVariableS target true with
                    | none => .error (.nameError ("name " ++ target ++ " is not defined"))
                    | some (itv, s₂) =>
                        match itv with
                        | .ir iterIR =>
                            let condN := IR.bin .lessThan iterIR endIR
                            let updateN := IR.bin .plus iterIR stepIR
                            let s₃ := s₂.pushScope false
                            let s₄ := s₃.setBindS (some iterIR) (.ir beginIR) none
                            let s₅ := (s₄.setFsmT none none none none).incFsm
                            let checkC := s₅.getFsmCount
                            let s₆ := s₅.incFsm
                            let bodyBegin := s₆.getFsmCount
                            match visitStmts f body s₆ with
                            | .error err => .error err
                            | .ok s₇ =>
                                let s₈ := s₇.popScope
                                let bodyEnd := s₈.getFsmCount
                                let s₉ := (s₈.setBindS (some iterIR)
                                  (.ir updateN) none).incFsm
                                let exitC := s₉.getFsmCount
                                let s₁₀ := (s₉.setFsmT (some bodyEnd) (some checkC)
                                  none none).setFsmT (some checkC) (some bodyBegin)
                                  (some condN) (some exitC)
                                let s₁₁ := s₁₀.getUnresolvedBreakS.foldl
                                  (fun acc b => acc.setFsmT (some b) (some exitC)
                                    none none) s₁₀
                                let s₁₂ := s₁₁.getUnresolvedContinueS.foldl
                                  (fun acc c => acc.setFsmT (some c) (some bodyEnd)
                                    none none) s₁₁
                                .ok ((s₁₂.clearBreakS.clearContinueS).setFsmLoop
                                  checkC bodyEnd (some iterIR) (some stepIR))
                        | _ => .error (.typeError "loop iterator is not a register")
              else .ok s
          | _ => .ok s
    | .funcDefS nm ps dfl bd =>
        -- visit_FunctionDef (lines 275-276)
        .ok (s.addFunctionS nm (ps, dfl, bd))
    | .returnS vexpr =>
        -- visit_Return (lines 731-753)
        match vexpr with
        | none => .ok ((s.addReturnS none).incFsm)
        | some ve =>
            match s.getReturnVariableS with
            | some retv =>
                match retv with
                | .ir rv =>
                    match visitExpr f ve s with
                    | .error err => .error err
                    | .ok (right, s₁) =>
                        .ok (((s₁.setBindS (some rv) right none).addReturnS
                          (some right)).incFsm)
                | _ => .error (.typeError "return variable is not a register")
            | none =>
                let (tmp, s₁) := s.getTmpVariableS
                let s₂ := s₁.setReturnVariableS tmp
                match tmp with
                | .ir tv =>
                    match visitExpr f ve s₂ with
                    | .error err => .error err
                    | .ok (right, s₃) =>
                        .ok (((s₃.setBindS (some tv) right none).addReturnS
                          (some right)).incFsm)
                | _ => .error (.typeError "return variable is not a register")
    | .breakS => .ok (s.addBreakS.incFsm)
    | .continueS => .ok (s.addContinueS.incFsm)
    | .passS => .ok s
    | .nonlocalS nms => .ok (nms.foldl (fun acc nm => acc.addNonlocalS nm) s)
    | .globalS nms => .ok (nms.foldl (fun acc nm => acc.addGlobalS nm) s)
    | .printS vals =>
        -- visit_Print (lines 840-887): the legacy print statement; note
        -- it performs no skip() check.
        match visitPrintArgs f vals [] [] s with
        | .error err => .error err
        | .ok ((fmtList, argvalues), s₁) =>
            let stargs := PyVal.ir (.strIR (String.join fmtList.dropLast)) :: argvalues
            let right := PyVal.systaskV "display" stargs
            let s₂ := s₁.setBindS none right none
            .ok ((s₂.setFsmT none none none none).incFsm)
    | .exprS e =>
        -- ast.Expr statements reach the expression visitor through
        -- generic_visit; the value is discarded.
        match visitExpr f e s with
        | .ok (_, s₁) => .ok s₁
        | .error err => .error err

/-- Lowering of a statement list (the body loops of the source). -/
def visitStmts (fuel : Nat) (sts : List Stmt) (s : CState) :
    Except CompErr CState :=
  match fuel, sts with
  | _, [] => .ok s
  | 0, _ => .error .outOfFuel
  | f + 1, st :: rest =>
      match visitStmt f st s with
      | .error err => .error err
      | .ok s₁ => visitStmts f rest s₁

end

/-- Auxiliary for `bit_length`, structural in its first argument so that
it evaluates by kernel reduction. -/
def bitLengthAux : Nat → Nat → Nat
  | 0, _ => 0
  | fuel + 1, n => if n = 0 then 0 else bitLengthAux fuel (n / 2) + 1

/-- Python `int.bit_length()` as used by `sleep`: `0` for `0`, and
`floor(log2 n) + 1` for positive `n` (see `bit_length_eq_log2`). -/
def bit_length (n : Nat) : Nat := bitLengthAux n n

/-- The outcome of `sleep`: the allocated counter register (width and
initial value) and the updated FSM. -/
structure SleepResult where
  counterWidth : Nat
  counterInitval : Int
  fsm : FSMState

/-- `ThreadGenerator.sleep(fsm, cycles)` (thread.py lines 144-150):
allocate a `TmpReg` of width `cycles.bit_length() + 1` with initval 0,
attach the counter increment to the current state, and emit the guarded
transition `count == cycles` to the next state (`fsm.If(...).goto_next()`;
the FSM primitive is modelled from spec sections 4.3 and 6.2). -/
def sleep (cycles : Nat) (fsm : FSMState) : SleepResult :=
  let width := bit_length cycles + 1
  let count : IR := .reg "_sleep_count"
  let fsm₁ : FSMState := { fsm with
    binds := fsm.binds ++
      [⟨fsm.current, some "_sleep_count", .ir (.bin .plus count (.intIR 1)), none⟩] }
  let fsm₂ : FSMState := { fsm₁ with
    transitions := fsm₁.transitions ++
      [⟨fsm₁.current, fsm₁.current + 1, some (.bin .eqV count (.intIR (cycles : Int))), none⟩],
    current := fsm₁.current + 1 }
  ⟨width, 0, fsm₂⟩

/-- The initial compile state of a fresh thread: an empty FSM at state 0
and a single function-boundary frame (the synthesized top-level call
`targ(...)` of `_synthesize_fsm` is itself inlined through a `"call"`
frame). -/
def initState : CState :=
  { fsm := ⟨0, [], []⟩, scope := [Frame.emptyCall], tmpCount := 0,
    regs := [], loopInfo := [], threadName := "th", datawidth := 32 }

/-- Is the computation a success? -/
def exceptIsOk {ε α : Type} : Except ε α → Bool
  | .ok _ => true
  | .error _ => false

/-- `bit_length` agrees with `floor(log2) + 1` on positive inputs (and is
`0` at `0`), matching Python's `int.bit_length`. -/
theorem bit_length_eq_log2 (n : Nat) (h : 0 < n) : bit_length n = Nat.log2 n + 1 := by
  suffices haux : ∀ fuel m, m ≤ fuel → 0 < m → bitLengthAux fuel m = Nat.log2 m + 1 by
    exact haux n n le_rfl h
  intro fuel
  induction fuel with
  | zero => intro m hm hpos; omega
  | succ f ih =>
      intro m hm hpos
      rw [bitLengthAux]
      have hne : ¬ (m = 0) := by omega
      simp only [hne, if_false]
      rcases Nat.lt_or_ge m 2 with h2 | h2
      · have hm1 : m = 1 := by omega
        subst hm1
        have h0 : ∀ fl, bitLengthAux fl 0 = 0 := by
          intro fl; cases fl <;> simp [bitLengthAux]
        norm_num [Nat.log2, h0]
      · have hdiv : 0 < m / 2 := Nat.div_pos h2 (by norm_num)
        have hle : m / 2 ≤ f := by
          have := Nat.div_le_self m 2
          have hlt : m / 2 < m := Nat.div_lt_self hpos (by norm_num)
          omega
        rw [ih (m / 2) hle hdiv]
        conv_rhs => rw [Nat.log2]
        simp only [ge_iff_le, h2, if_true]

/-- C8, counterexample: the claim predicts a counter width of
`ceil(log2(cycles)) + 1`; at `cycles = 4` the code allocates width
`(4).bit_length() + 1 = 4` while `ceil(log2 4) + 1 = 3`. -/
theorem sleep_width_cex :
    (sleep 4 ⟨0, [], []⟩).counterWidth ≠ Nat.clog 2 4 + 1 := by
  have hclog : Nat.clog 2 4 = 2 := by
    have h : (4 : ℕ) = 2 ^ 2 := by norm_num
    rw [h, Nat.clog_pow 2 2 (by norm_num)]
  have hw : (sleep 4 ⟨0, [], []⟩).counterWidth = 4 := rfl
  omega

/-- C8 (amended): for every invocation of the sleep intrinsic with cycle
count `cycles`, the compiler allocates a counter register of width
exactly `cycles.bit_length() + 1` (that is `floor(log2 cycles) + 2` for
positive `cycles`, not `ceil(log2 cycles) + 1`) with initial value 0,
attaches an increment of that counter to the current state, and emits a
transition to the next state guarded by the counter equalling
`cycles`. -/
theorem sleep_spec (cycles : Nat) (fsm : FSMState) :
    (sleep cycles fsm).counterWidth = bit_length cycles + 1 ∧
    (sleep cycles fsm).counterInitval = 0 ∧
    (sleep cycles fsm).fsm.binds = fsm.binds ++
      [⟨fsm.current, some "_sleep_count",
        .ir (.bin .plus (.reg "_sleep_count") (.intIR 1)), none⟩] ∧
    (sleep cycles fsm).fsm.transitions = fsm.transitions ++
      [⟨fsm.current, fsm.current + 1,
        some (.bin .eqV (.reg "_sleep_count") (.intIR (cycles : Int))), none⟩] ∧
    (sleep cycles fsm).fsm.current = fsm.current + 1 :=
  ⟨rfl, rfl, rfl, rfl, rfl⟩

/-- C9: a for statement whose iterable is not a call to the name `range`
is accepted but lowers to a silent no-op: the visit returns the compile
state unchanged, so no error is raised, no FSM state is allocated, no
transition or bind is emitted, and the body is never visited. -/
theorem visit_For_nonrange (f : Nat) (tgt : String) (iter : Expr)
    (body : List Stmt) (s : CState)
    (hnr : ∀ argsK kwsK, iter ≠ .call "range" argsK kwsK) :
    visitStmt (f + 1) (.forS tgt iter body) s = .ok s := by
  simp only [visitStmt]
  cases iter with
  | call fn a k =>
      rcases eq_or_ne fn "range" with rfl | hn
      · exact absurd rfl (hnr a k)
      · simp [hn]
  | _ => split <;> rfl

/-- C9 witness. -/
theorem visit_For_nonrange_witness :
    visitStmt 4 (.forS "i" (.nameL "xs") [.breakS]) initState = .ok initState :=
  visit_For_nonrange 3 "i" (.nameL "xs") [.breakS] initState
    (fun _ _ h => Expr.noConfusion h)

/-- C10: `int(...)` with more than one argument raises the explicit
`TypeError`; with exactly one argument the lowered argument is returned
unchanged; with zero arguments the source indexes an empty list and an
unhandled `IndexError` escapes instead of `Int(0)` or a documented
type-misuse error. -/
theorem call_int_cases :
    (∀ (f : Nat) (s : CState), callNameInt (f + 1) [] s = .error .indexError) ∧
    (∀ (f : Nat) (args : List Expr) (s : CState), args.length > 1 →
      callNameInt (f + 1) args s =
        .error (.typeError "Too much arguments for int()")) ∧
    (∀ (f : Nat) (a : Expr) (s : CState) (v : PyVal) (s₁ : CState),
      visitExpr f a s = .ok (v, s₁) →
      callNameInt (f + 2) [a] s = .ok (v, s₁)) := by
  refine ⟨fun f s => ?_, fun f args s hlen => ?_, fun f a s v s₁ hv => ?_⟩
  · simp only [callNameInt, visitExprs]
    rfl
  · simp only [callNameInt]
    simp [hlen]
  · simp only [callNameInt, visitExprs, hv]
    simp

/-- C10 witness. -/
theorem call_int_cases_witness :
    callNameInt 3 [] initState = .error .indexError ∧
    callNameInt 3 [.num 1, .num 2] initState =
      .error (.typeError "Too much arguments for int()") ∧
    callNameInt 4 [.num 7] initState = .ok (.ir (.intIR 7), initState) :=
  ⟨call_int_cases.1 2 initState,
   call_int_cases.2.1 2 [.num 1, .num 2] initState (by decide),
   call_int_cases.2.2 2 (.num 7) initState (.ir (.intIR 7)) initState rfl⟩

/-- C6, counterexample: the claim predicts that `+` with a string operand
concatenates; on `Str "a" + Int 1` the code instead raises, because
`_string_operation_plus` demands two string literals. -/
theorem string_binop_cex :
    binOpCombine .add (.ir (.strIR "a")) (.ir (.intIR 1)) =
      .error (.typeError "plus operation requires two string arguments") := rfl

/-- C6 (amended): for a binary operation in which either operand lowers
to an IR string literal: with operator `+` and both operands strings the
result is a new IR `Str` concatenating the payloads; with operator `+`
and only one string operand an error is raised; with any operator other
than `+` an error is raised. -/
theorem string_binop_spec (op : AstOp) (l r : PyVal)
    (hstr : l.isStr || r.isStr) :
    (∀ a b, op = .add → l = .ir (.strIR a) → r = .ir (.strIR b) →
      binOpCombine op l r = .ok (.ir (.strIR (a ++ b)))) ∧
    (op = .add → (l.isStr && r.isStr) = false →
      binOpCombine op l r =
        .error (.typeError "plus operation requires two string arguments")) ∧
    (op ≠ .add → exceptIsOk (binOpCombine op l r) = false) := by
  refine ⟨fun a b hop hl hr => ?_, fun hop hnb => ?_, fun hop => ?_⟩
  · subst hop; subst hl; subst hr
    rfl
  · subst hop
    simp only [binOpCombine, getVeriloggenOp, stringOperationPlus]
    simp only [hstr, if_pos rfl, if_true]
    cases l with
    | ir li =>
        cases r with
        | ir ri =>
            cases li <;> cases ri <;>
              simp_all [PyVal.isStr, stringOperationPlus]
        | tup vs => cases li <;> simp_all [PyVal.isStr, stringOperationPlus]
        | systaskV n a => cases li <;> simp_all [PyVal.isStr, stringOperationPlus]
        | pynone => cases li <;> simp_all [PyVal.isStr, stringOperationPlus]
    | tup vs => cases r <;> simp_all [PyVal.isStr, stringOperationPlus]
    | systaskV n a => cases r <;> simp_all [PyVal.isStr, stringOperationPlus]
    | pynone => cases r <;> simp_all [PyVal.isStr, stringOperationPlus]
  · have hvop : ∀ vop, getVeriloggenOp op = some vop → vop ≠ .plus := by
      cases op <;> simp_all [getVeriloggenOp]
    simp only [binOpCombine]
    cases hg : getVeriloggenOp op with
    | none => rfl
    | some vop =>
        have hne := hvop vop hg
        simp [hstr, hne, exceptIsOk]

/-- C6 witness: the amended theorem applied at concrete operands. -/
theorem string_binop_spec_witness :
    ((PyVal.ir (.strIR "x")).isStr || (PyVal.ir (.strIR "y")).isStr) = true ∧
    binOpCombine .add (.ir (.strIR "x")) (.ir (.strIR "y")) =
      .ok (.ir (.strIR "xy")) ∧
    exceptIsOk (binOpCombine .sub (.ir (.strIR "x")) (.ir (.intIR 2))) = false :=
  ⟨by decide,
   (string_binop_spec .add (.ir (.strIR "x")) (.ir (.strIR "y")) (by decide)).1
     "x" "y" rfl rfl rfl,
   (string_binop_spec .sub (.ir (.strIR "x")) (.ir (.intIR 2)) (by decide)).2.2
     (by decide)⟩


/-- C7: for an assignment, a tuple target of length `n > 1` against a
tuple right-hand side of length `m` raises the too-many-values error
when `n < m`, the not-enough-values error when `n > m`, and recurses
elementwise when `n = m`; a single non-tuple right-hand side against a
tuple target of length `n > 1` raises an error (in the source even the
error-message formatting crashes); a single right-hand side assigned to
a single target is always permitted, reducing to the plain bind. -/
theorem tuple_assign_spec :
    (∀ (s : CState) (ts : List Targ) (vs rs : List PyVal),
      1 < vs.length → vs.length < rs.length →
      theAssign s (.tupT ts) (.tup vs) (.tup rs) =
        .error (.valueError ("too many values to unpack (expected " ++
          toString rs.length ++ ")"))) ∧
    (∀ (s : CState) (ts : List Targ) (vs rs : List PyVal),
      1 < vs.length → rs.length < vs.length →
      theAssign s (.tupT ts) (.tup vs) (.tup rs) =
        .error (.valueError ("not enough values to unpack (expected " ++
          toString vs.length ++ ", got " ++ toString rs.length ++ ")"))) ∧
    (∀ (s : CState) (ts : List Targ) (vs rs : List PyVal),
      1 < vs.length → vs.length = rs.length →
      theAssign s (.tupT ts) (.tup vs) (.tup rs) = theAssignZip s ts vs rs) ∧
    (∀ (s : CState) (ts : List Targ) (vs : List PyVal) (r : PyVal),
      (∀ xs, r ≠ .tup xs) → 1 < vs.length →
      exceptIsOk (theAssign s (.tupT ts) (.tup vs) r) = false) ∧
    (∀ (s : CState) (n : String) (lv r : PyVal), (∀ xs, lv ≠ .tup xs) →
      theAssign s (.nameT n) lv r = setAssignBind s (.nameT n) lv r) := by
  refine ⟨fun s ts vs rs h1 h2 => ?_, fun s ts vs rs h1 h2 => ?_,
    fun s ts vs rs h1 h2 => ?_, fun s ts vs r hnt h1 => ?_,
    fun s n lv r hnt => ?_⟩
  · rw [theAssign]
    have hne : ¬ (vs.length = 1) := by omega
    simp only [if_neg hne, if_pos h2]
  · rw [theAssign]
    have hne : ¬ (vs.length = 1) := by omega
    have hnlt : ¬ (vs.length < rs.length) := by omega
    simp only [if_neg hne, if_neg hnlt, if_pos h2]
  · rw [theAssign]
    have hne : ¬ (vs.length = 1) := by omega
    have hnlt : ¬ (vs.length < rs.length) := by omega
    have hngt : ¬ (rs.length < vs.length) := by omega
    simp only [if_neg hne, if_neg hnlt, if_neg hngt]
  · cases r with
    | tup xs => exact absurd rfl (hnt xs)
    | ir v =>
        rw [theAssign]
        simp only [if_pos h1]
        all_goals first
          | rfl
          | exact fun _ h => PyVal.noConfusion h
    | systaskV tn a =>
        rw [theAssign]
        simp only [if_pos h1]
        all_goals first
          | rfl
          | exact fun _ h => PyVal.noConfusion h
    | pynone =>
        rw [theAssign]
        simp only [if_pos h1]
        all_goals first
          | rfl
          | exact fun _ h => PyVal.noConfusion h
  · cases r <;> cases lv <;>
      first
      | exact absurd rfl (hnt _)
      | (rw [theAssign] <;>
          first
            | rfl
            | exact fun _ h => PyVal.noConfusion h
            | exact fun _ h => Targ.noConfusion h)

/-- C7 witness: the arity cases at concrete inputs. -/
theorem tuple_assign_spec_witness :
    theAssign initState (.tupT [.nameT "a", .nameT "b"])
        (.tup [.ir (.reg "a"), .ir (.reg "b")])
        (.tup [.ir (.intIR 1), .ir (.intIR 2), .ir (.intIR 3)]) =
      .error (.valueError "too many values to unpack (expected 3)") ∧
    theAssign initState (.tupT [.nameT "a", .nameT "b"])
        (.tup [.ir (.reg "a"), .ir (.reg "b")])
        (.tup [.ir (.intIR 1)]) =
      .error (.valueError "not enough values to unpack (expected 2, got 1)") ∧
    theAssign initState (.tupT [.nameT "a", .nameT "b"])
        (.tup [.ir (.reg "a"), .ir (.reg "b")])
        (.tup [.ir (.intIR 1), .ir (.intIR 2)]) =
      theAssignZip initState [.nameT "a", .nameT "b"]
        [.ir (.reg "a"), .ir (.reg "b")] [.ir (.intIR 1), .ir (.intIR 2)] ∧
    exceptIsOk (theAssign initState (.tupT [.nameT "a", .nameT "b"])
        (.tup [.ir (.reg "a"), .ir (.reg "b")]) (.ir (.intIR 1))) = false ∧
    theAssign initState (.nameT "a") (.ir (.reg "a")) (.ir (.intIR 1)) =
      setAssignBind initState (.nameT "a") (.ir (.reg "a")) (.ir (.intIR 1)) :=
  ⟨tuple_assign_spec.1 initState _ _ _ (by decide) (by decide),
   tuple_assign_spec.2.1 initState _ _ _ (by decide) (by decide),
   tuple_assign_spec.2.2.1 initState _ _ _ (by decide) (by decide),
   tuple_assign_spec.2.2.2.1 initState _ _ _
     (fun _ h => PyVal.noConfusion h) (by decide),
   tuple_assign_spec.2.2.2.2 initState _ _ _ (fun _ h => PyVal.noConfusion h)⟩

/-- A concrete compile state with an outstanding break patch, exactly as
left behind by lowering a `break` statement. -/
def afterBreakState : CState := initState.addBreakS.incFsm

/-- C5, counterexample: the claim says a statement visited while a
break/continue/return patch is outstanding is skipped, emitting nothing
and consuming no FSM state.  After a lowered `break`, skip() is true,
yet lowering the legacy print statement still emits a bind and a
transition and consumes an FSM state, because `visit_Print` never calls
`skip()` (neither do `visit_Break`, `visit_Continue`, `visit_Return`,
`visit_Pass`, `visit_FunctionDef`, `visit_Nonlocal`, `visit_Global`). -/
theorem skip_claim_cex :
    afterBreakState.skipS = true ∧
    afterBreakState.fsm.current = 1 ∧
    afterBreakState.fsm.binds.length = 0 ∧
    afterBreakState.fsm.transitions.length = 0 ∧
    (visitStmt 5 (.printS [.strL "hello"]) afterBreakState).map
      (fun s => s.fsm.current) = .ok 2 ∧
    (visitStmt 5 (.printS [.strL "hello"]) afterBreakState).map
      (fun s => s.fsm.binds.length) = .ok 1 ∧
    (visitStmt 5 (.printS [.strL "hello"]) afterBreakState).map
      (fun s => s.fsm.transitions.length) = .ok 1 :=
  ⟨rfl, rfl, rfl, rfl, rfl, rfl, rfl⟩

/-- Does this statement kind begin its visit with the skip() guard?
True exactly for `visit_Assign`, `visit_AugAssign`, `visit_If`,
`visit_While`, `visit_For` and `visit_Call` (reached for an expression
statement whose value is a call). -/
def checksSkip : Stmt → Bool
  | .assignS _ _ => true
  | .augAssignS _ _ _ => true
  | .ifS _ _ _ => true
  | .whileS _ _ => true
  | .forS _ _ _ => true
  | .exprS (.call _ _ _) => true
  | _ => false

/-- C5 (amended): the skip() guard is checked at the entry of the
Assign, AugAssign, If, While, For and Call visits only; each of these
returns with the compile state unchanged (no bindings, no transitions,
no FSM state consumed) whenever the owning frame has an outstanding
break, continue or return patch.  The Break, Continue, Return, Pass,
Print, Nonlocal, Global and FunctionDef visits perform no such check
(see the counterexample). -/
theorem skip_guard_spec (f : Nat) (st : Stmt) (s : CState)
    (hskip : s.skipS = true) (hc : checksSkip st = true) :
    visitStmt (f + 2) st s = .ok s := by
  cases st with
  | assignS t v => simp [visitStmt, hskip]
  | augAssignS t op v => simp [visitStmt, hskip]
  | ifS t b o => simp [visitStmt, hskip]
  | whileS t b => simp [visitStmt, hskip]
  | forS t it b => simp [visitStmt, hskip]
  | exprS e =>
      cases e with
      | call fn a k => simp [visitStmt, visitExpr, hskip]
      | _ => exact absurd hc (by simp [checksSkip])
  | _ => exact absurd hc (by simp [checksSkip])

/-- C5 witness: the amended theorem applied after a lowered break. -/
theorem skip_guard_spec_witness :
    afterBreakState.skipS = true ∧
    checksSkip (.assignS [.nameT "z"] (.num 1)) = true ∧
    visitStmt 5 (.assignS [.nameT "z"] (.num 1)) afterBreakState =
      .ok afterBreakState :=
  ⟨rfl, rfl, skip_guard_spec 3 (.assignS [.nameT "z"] (.num 1))
    afterBreakState rfl rfl⟩

theorem innermostCall_modify (g : Frame → Frame)
    (hg : ∀ fr, (g fr).isCall = fr.isCall) (L : List Frame) :
    innermostCall (modifyInnermostCall g L) = (innermostCall L).map g := by
  induction L with
  | nil => rfl
  | cons fr rest ih =>
      by_cases h : fr.isCall <;>
        simp [modifyInnermostCall, innermostCall, h, hg, ih]

namespace CState

@[simp] theorem setFsmT_scope (s : CState) (a b : Option Nat) (c : Option IR)
    (d : Option Nat) : (s.setFsmT a b c d).scope = s.scope := rfl

@[simp] theorem setFsmT_current (s : CState) (a b : Option Nat) (c : Option IR)
    (d : Option Nat) : (s.setFsmT a b c d).fsm.current = s.fsm.current := rfl

@[simp] theorem setFsmT_binds (s : CState) (a b : Option Nat) (c : Option IR)
    (d : Option Nat) : (s.setFsmT a b c d).fsm.binds = s.fsm.binds := rfl

theorem setFsmT_transitions (s : CState) (a : Nat) (b : Option Nat) (c : Option IR)
    (d : Option Nat) : (s.setFsmT (some a) b c d).fsm.transitions =
      s.fsm.transitions ++ [⟨a, b.getD (a+1), c, d⟩] := rfl

@[simp] theorem incFsm_scope (s : CState) : s.incFsm.scope = s.scope := rfl
@[simp] theorem incFsm_transitions (s : CState) :
    s.incFsm.fsm.transitions = s.fsm.transitions := rfl
@[simp] theorem incFsm_binds (s : CState) : s.incFsm.fsm.binds = s.fsm.binds := rfl
@[simp] theorem incFsm_current (s : CState) :
    s.incFsm.fsm.current = s.fsm.current + 1 := rfl

@[simp] theorem popScope_fsm (s : CState) : s.popScope.fsm = s.fsm := rfl
@[simp] theorem pushScope_fsm (s : CState) (b : Bool) :
    (s.pushScope b).fsm = s.fsm := rfl

@[simp] theorem setFsmLoop_fsm (s : CState) (a b : Nat) (i j : Option IR) :
    (s.setFsmLoop a b i j).fsm = s.fsm := rfl
@[simp] theorem setFsmLoop_scope (s : CState) (a b : Nat) (i j : Option IR) :
    (s.setFsmLoop a b i j).scope = s.scope := rfl

@[simp] theorem clearBreakS_fsm (s : CState) : s.clearBreakS.fsm = s.fsm := rfl
@[simp] theorem clearContinueS_fsm (s : CState) : s.clearContinueS.fsm = s.fsm := rfl
@[simp] theorem clearReturnS_fsm (s : CState) : s.clearReturnS.fsm = s.fsm := rfl
@[simp] theorem clearReturnVariableS_fsm (s : CState) :
    s.clearReturnVariableS.fsm = s.fsm := rfl

@[simp] theorem setBindS_scope (s : CState) (v : Option IR) (x : PyVal)
    (c : Option IR) : (s.setBindS v x c).scope = s.scope := rfl
@[simp] theorem setBindS_current (s : CState) (v : Option IR) (x : PyVal)
    (c : Option IR) : (s.setBindS v x c).fsm.current = s.fsm.current := rfl
@[simp] theorem setBindS_transitions (s : CState) (v : Option IR) (x : PyVal)
    (c : Option IR) : (s.setBindS v x c).fsm.transitions = s.fsm.transitions := rfl

@[simp] theorem getUnresolvedBreakS_clearBreakS (s : CState) :
    s.clearBreakS.getUnresolvedBreakS = [] := by
  have h := innermostCall_modify
    (fun fr => { fr with breaks := [] }) (fun fr => rfl) s.scope
  simp only [getUnresolvedBreakS, clearBreakS, h]
  cases innermostCall s.scope <;> rfl

@[simp] theorem getUnresolvedBreakS_clearContinueS (s : CState) :
    s.clearContinueS.getUnresolvedBreakS = s.getUnresolvedBreakS := by
  have h := innermostCall_modify
    (fun fr => { fr with conts := [] }) (fun fr => rfl) s.scope
  simp only [getUnresolvedBreakS, clearContinueS, h]
  cases innermostCall s.scope <;> rfl

@[simp] theorem getUnresolvedContinueS_clearContinueS (s : CState) :
    s.clearContinueS.getUnresolvedContinueS = [] := by
  have h := innermostCall_modify
    (fun fr => { fr with conts := [] }) (fun fr => rfl) s.scope
  simp only [getUnresolvedContinueS, clearContinueS, h]
  cases innermostCall s.scope <;> rfl

@[simp] theorem getUnresolvedContinueS_clearBreakS (s : CState) :
    s.clearBreakS.getUnresolvedContinueS = s.getUnresolvedContinueS := by
  have h := innermostCall_modify
    (fun fr => { fr with breaks := [] }) (fun fr => rfl) s.scope
  simp only [getUnresolvedContinueS, clearBreakS, h]
  cases innermostCall s.scope <;> rfl

end CState

theorem foldl_patch_scope (L : List Nat) (dst : Nat) (s : CState) :
    (L.foldl (fun acc b => acc.setFsmT (some b) (some dst) none none) s).scope
      = s.scope := by
  induction L generalizing s with
  | nil => rfl
  | cons b rest ih => simp [List.foldl_cons, ih]

theorem foldl_patch_current (L : List Nat) (dst : Nat) (s : CState) :
    (L.foldl (fun acc b => acc.setFsmT (some b) (some dst) none none) s).fsm.current
      = s.fsm.current := by
  induction L generalizing s with
  | nil => rfl
  | cons b rest ih => simp [List.foldl_cons, ih]

theorem foldl_patch_binds (L : List Nat) (dst : Nat) (s : CState) :
    (L.foldl (fun acc b => acc.setFsmT (some b) (some dst) none none) s).fsm.binds
      = s.fsm.binds := by
  induction L generalizing s with
  | nil => rfl
  | cons b rest ih => simp [List.foldl_cons, ih]

theorem foldl_patch_transitions (L : List Nat) (dst : Nat) (s : CState) :
    (L.foldl (fun acc b => acc.setFsmT (some b) (some dst) none none) s).fsm.transitions
      = s.fsm.transitions ++ L.map (fun b => ⟨b, dst, none, none⟩) := by
  induction L generalizing s with
  | nil => simp
  | cons b rest ih =>
      simp [List.foldl_cons, ih, CState.setFsmT_transitions]

@[simp] theorem getUnresolvedBreakS_setFsmT (s : CState) (a b : Option Nat)
    (c : Option IR) (d : Option Nat) :
    (s.setFsmT a b c d).getUnresolvedBreakS = s.getUnresolvedBreakS := rfl
@[simp] theorem getUnresolvedBreakS_incFsm (s : CState) :
    s.incFsm.getUnresolvedBreakS = s.getUnresolvedBreakS := rfl
@[simp] theorem getUnresolvedContinueS_setFsmT (s : CState) (a b : Option Nat)
    (c : Option IR) (d : Option Nat) :
    (s.setFsmT a b c d).getUnresolvedContinueS = s.getUnresolvedContinueS := rfl
@[simp] theorem getUnresolvedContinueS_incFsm (s : CState) :
    s.incFsm.getUnresolvedContinueS = s.getUnresolvedContinueS := rfl
@[simp] theorem getUnresolvedReturnS_setFsmT (s : CState) (a b : Option Nat)
    (c : Option IR) (d : Option Nat) :
    (s.setFsmT a b c d).getUnresolvedReturnS = s.getUnresolvedReturnS := rfl
@[simp] theorem getUnresolvedReturnS_incFsm (s : CState) :
    s.incFsm.getUnresolvedReturnS = s.getUnresolvedReturnS := rfl

theorem getUnresolvedBreakS_scope_congr {a b : CState} (h : a.scope = b.scope) :
    a.getUnresolvedBreakS = b.getUnresolvedBreakS := by
  simp [CState.getUnresolvedBreakS, h]
theorem getUnresolvedContinueS_scope_congr {a b : CState} (h : a.scope = b.scope) :
    a.getUnresolvedContinueS = b.getUnresolvedContinueS := by
  simp [CState.getUnresolvedContinueS, h]

@[simp] theorem getUnresolvedBreakS_foldl_patch (L : List Nat) (dst : Nat)
    (s : CState) :
    (L.foldl (fun acc b => acc.setFsmT (some b) (some dst) none none)
      s).getUnresolvedBreakS = s.getUnresolvedBreakS :=
  getUnresolvedBreakS_scope_congr (foldl_patch_scope L dst s)
@[simp] theorem getUnresolvedContinueS_foldl_patch (L : List Nat) (dst : Nat)
    (s : CState) :
    (L.foldl (fun acc b => acc.setFsmT (some b) (some dst) none none)
      s).getUnresolvedContinueS = s.getUnresolvedContinueS :=
  getUnresolvedContinueS_scope_congr (foldl_patch_scope L dst s)

@[simp] theorem getUnresolvedBreakS_setFsmLoop (s : CState) (a b : Nat)
    (i j : Option IR) :
    (s.setFsmLoop a b i j).getUnresolvedBreakS = s.getUnresolvedBreakS := rfl
@[simp] theorem getUnresolvedContinueS_setFsmLoop (s : CState) (a b : Nat)
    (i j : Option IR) :
    (s.setFsmLoop a b i j).getUnresolvedContinueS = s.getUnresolvedContinueS := rfl
@[simp] theorem getUnresolvedReturnS_setFsmLoop (s : CState) (a b : Nat)
    (i j : Option IR) :
    (s.setFsmLoop a b i j).getUnresolvedReturnS = s.getUnresolvedReturnS := rfl

/-- C2: for every while statement lowered (skip() false), writing `begin`
for the FSM state after the test is lowered, `body_begin = begin + 1`,
`body_end` for the state after the body is lowered and
`exit = body_end + 1`, the compiler emits exactly
`goto_from(begin, body_begin, test, exit)` then
`goto_from(body_end, begin)`, then patches every unresolved break state
to `exit` and every unresolved continue state to `begin`, and both patch
lists are cleared before the lowering finishes; the statement ends at
state `exit`. -/
theorem visit_While_spec (f : Nat) (test : Expr) (body : List Stmt)
    (s : CState) (testIR : IR) (s₁ s₄ : CState)
    (hskip : s.skipS = false)
    (htest : visitExpr f test s = .ok (.ir testIR, s₁))
    (hbody : visitStmts f body ((s₁.incFsm).pushScope false) = .ok s₄) :
    (visitStmt (f + 1) (.whileS test body) s).map (fun r => r.fsm.transitions) =
      .ok (s₄.fsm.transitions ++
        [⟨s₁.fsm.current, s₁.fsm.current + 1, some testIR, some (s₄.fsm.current + 1)⟩,
         ⟨s₄.fsm.current, s₁.fsm.current, none, none⟩] ++
        (s₄.popScope.getUnresolvedBreakS.map
          (fun b => ⟨b, s₄.fsm.current + 1, none, none⟩)) ++
        (s₄.popScope.getUnresolvedContinueS.map
          (fun c => ⟨c, s₁.fsm.current, none, none⟩))) ∧
    (visitStmt (f + 1) (.whileS test body) s).map
      (fun r => r.getUnresolvedBreakS) = .ok [] ∧
    (visitStmt (f + 1) (.whileS test body) s).map
      (fun r => r.getUnresolvedContinueS) = .ok [] ∧
    (visitStmt (f + 1) (.whileS test body) s).map
      (fun r => r.fsm.current) = .ok (s₄.fsm.current + 1) := by
  refine ⟨?_, ?_, ?_, ?_⟩ <;>
  · simp only [visitStmt, hskip, Bool.false_eq_true, if_false, htest, hbody]
    simp [Except.map, CState.getFsmCount, foldl_patch_transitions,
      foldl_patch_current, CState.setFsmT_transitions]

/-- C2 witness: `while 1: pass-less empty body` from the initial state:
begin 0, body_begin 1, body_end 1, exit 2. -/
theorem visit_While_spec_witness :
    initState.skipS = false ∧
    (visitStmt 3 (.whileS (.num 1) []) initState).map
      (fun r => r.fsm.transitions) =
      .ok [⟨0, 1, some (.intIR 1), some 2⟩, ⟨1, 0, none, none⟩] ∧
    (visitStmt 3 (.whileS (.num 1) []) initState).map
      (fun r => r.getUnresolvedBreakS) = .ok [] ∧
    (visitStmt 3 (.whileS (.num 1) []) initState).map
      (fun r => r.fsm.current) = .ok 2 :=
  have h := visit_While_spec 2 (.num 1) [] initState (.intIR 1) initState
    ((initState.incFsm).pushScope false) rfl rfl rfl
  ⟨rfl, h.1, h.2.1, h.2.2.2⟩

theorem lowerRangeArgs_defaults (f : Nat) (args : List Expr) (s : CState)
    (bIR eIR stIR : IR) (s₁ : CState)
    (h : lowerRangeArgs f args s = .ok ((bIR, eIR, stIR), s₁)) :
    (args.length = 1 → bIR = .intIR 0) ∧ (args.length ≤ 2 → stIR = .intIR 1) := by
  cases f with
  | zero => exact absurd h (by simp [lowerRangeArgs])
  | succ g =>
      match args with
      | [] => exact absurd h (by simp [lowerRangeArgs])
      | [a] =>
          simp only [lowerRangeArgs] at h
          cases hv : visitExpr g a s with
          | error err => rw [hv] at h; cases h
          | ok p =>
              rw [hv] at h
              obtain ⟨ev, s'⟩ := p
              cases ev <;> try cases h
              exact ⟨fun _ => rfl, fun _ => rfl⟩
      | [a, b] =>
          simp only [lowerRangeArgs] at h
          cases hv : visitExpr g a s with
          | error err => rw [hv] at h; cases h
          | ok p =>
              rw [hv] at h
              obtain ⟨ev, s'⟩ := p
              dsimp only at h
              cases hv2 : visitExpr g b s' with
              | error err => rw [hv2] at h; cases h
              | ok p2 =>
                  rw [hv2] at h
                  obtain ⟨ev2, s''⟩ := p2
                  cases ev <;> cases ev2 <;> try cases h
                  exact ⟨fun hl => by simp at hl, fun _ => rfl⟩
      | a :: b :: c :: rest =>
          refine ⟨fun hl => ?_, fun hl => ?_⟩ <;>
            (simp only [List.length_cons] at hl; omega)

@[simp] theorem getUnresolvedBreakS_setBindS (s : CState) (v : Option IR)
    (x : PyVal) (c : Option IR) :
    (s.setBindS v x c).getUnresolvedBreakS = s.getUnresolvedBreakS := rfl
@[simp] theorem getUnresolvedContinueS_setBindS (s : CState) (v : Option IR)
    (x : PyVal) (c : Option IR) :
    (s.setBindS v x c).getUnresolvedContinueS = s.getUnresolvedContinueS := rfl
@[simp] theorem getUnresolvedReturnS_setBindS (s : CState) (v : Option IR)
    (x : PyVal) (c : Option IR) :
    (s.setBindS v x c).getUnresolvedReturnS = s.getUnresolvedReturnS := rfl

theorem setBindS_binds_some (s : CState) (v : IR) (x : PyVal) :
    (s.setBindS (some v) x none).fsm.binds =
      s.fsm.binds ++ [⟨s.fsm.current, v.regName, x, none⟩] := rfl

/-- C1: for every for statement whose iterable is a `range(...)` call
lowered (skip() false), writing `sInit` for the state at which the
iteration register is initialized, `check = sInit + 1`,
`body_begin = check + 1`, `body_end` for the state after the body and
`exit = body_end + 1`: the iteration register is initialized to the
begin value, which is `Int(0)` when `range` has one argument; the step
defaults to `Int(1)` with fewer than three arguments; a back-edge
transition goes from `body_end` to `check`; `check` branches to
`body_begin` under the guard `iter < end` and to `exit` otherwise; every
unresolved break is patched to `exit` and every unresolved continue to
`body_end`, the state carrying the `iter = iter + step` update bind; and
both patch lists are cleared.  Argument decoding follows the Python
`range` convention (end; begin,end; begin,end,step). -/
theorem visit_For_range_spec (f : Nat) (target : String) (rargs : List Expr)
    (kws : List (String × Expr)) (body : List Stmt) (s : CState)
    (beginIR endIR stepIR iterIR : IR) (s₁ s₂ s₇ : CState)
    (hskip : s.skipS = false)
    (hargs : lowerRangeArgs f rargs s = .ok ((beginIR, endIR, stepIR), s₁))
    (hiter : s₁.getVariableS target true = some (.ir iterIR, s₂))
    (hbody : visitStmts f body
      (((((s₂.pushScope false).setBindS (some iterIR) (.ir beginIR)
        none).setFsmT none none none none).incFsm).incFsm) = .ok s₇) :
    (rargs.length = 1 → beginIR = .intIR 0) ∧
    (rargs.length ≤ 2 → stepIR = .intIR 1) ∧
    ((s₂.pushScope false).setBindS (some iterIR) (.ir beginIR) none).fsm.binds =
      s₂.fsm.binds ++ [⟨s₂.fsm.current, iterIR.regName, .ir beginIR, none⟩] ∧
    (visitStmt (f + 1) (.forS target (.call "range" rargs kws) body) s).map
      (fun r => r.fsm.binds) =
      .ok (s₇.fsm.binds ++
        [⟨s₇.fsm.current, iterIR.regName, .ir (.bin .plus iterIR stepIR), none⟩]) ∧
    (visitStmt (f + 1) (.forS target (.call "range" rargs kws) body) s).map
      (fun r => r.fsm.transitions) =
      .ok (s₇.fsm.transitions ++
        [⟨s₇.fsm.current, s₂.fsm.current + 1, none, none⟩,
         ⟨s₂.fsm.current + 1, s₂.fsm.current + 2,
           some (.bin .lessThan iterIR endIR), some (s₇.fsm.current + 1)⟩] ++
        (s₇.popScope.getUnresolvedBreakS.map
          (fun b => ⟨b, s₇.fsm.current + 1, none, none⟩)) ++
        (s₇.popScope.getUnresolvedContinueS.map
          (fun c => ⟨c, s₇.fsm.current, none, none⟩))) ∧
    (visitStmt (f + 1) (.forS target (.call "range" rargs kws) body) s).map
      (fun r => r.getUnresolvedBreakS) = .ok [] ∧
    (visitStmt (f + 1) (.forS target (.call "range" rargs kws) body) s).map
      (fun r => r.getUnresolvedContinueS) = .ok [] ∧
    (visitStmt (f + 1) (.forS target (.call "range" rargs kws) body) s).map
      (fun r => r.fsm.current) = .ok (s₇.fsm.current + 1) := by
  have hdef := lowerRangeArgs_defaults f rargs s beginIR endIR stepIR s₁ hargs
  refine ⟨hdef.1, hdef.2, rfl, ?_, ?_, ?_, ?_, ?_⟩ <;>
  · simp only [visitStmt, hskip, Bool.false_eq_true, if_false, hargs, hiter,
      hbody, reduceIte]
    simp [Except.map, CState.getFsmCount, foldl_patch_transitions,
      foldl_patch_current, foldl_patch_binds, CState.setFsmT_transitions,
      setBindS_binds_some]

/-- C1 witness: `for i in range(3)` with an empty body from the initial
state: init at state 0, check 1, body_begin 2, body_end 2, exit 3. -/
theorem visit_For_range_spec_witness :
    initState.skipS = false ∧
    (visitStmt 3 (.forS "i" (.call "range" [.num 3] []) []) initState).map
      (fun r => r.fsm.current) = .ok 3 ∧
    (visitStmt 3 (.forS "i" (.call "range" [.num 3] []) []) initState).map
      (fun r => r.getUnresolvedBreakS) = .ok [] ∧
    (visitStmt 3 (.forS "i" (.call "range" [.num 3] []) []) initState).map
      (fun r => r.getUnresolvedContinueS) = .ok [] :=
  have h := visit_For_range_spec 2 "i" [.num 3] [] [] initState
    (.intIR 0) (.intIR 3) (.intIR 1) (.reg "_thread_th_i_0") initState _ _
    rfl rfl rfl rfl
  ⟨rfl, h.2.2.2.2.2.2.2, h.2.2.2.2.2.1, h.2.2.2.2.2.2.1⟩

/-- The per-frame return invariant (claim C4): the return-variable slot
is occupied exactly when the frame's unresolved-return log contains at
least one return that carried a value. -/
def frameOK (fr : Frame) : Prop :=
  fr.retvar.isSome = fr.rets.any (fun p => p.2.isSome)

/-- All frames of a scope satisfy the return invariant. -/
def scopeInvP (S : List Frame) : Prop := ∀ fr ∈ S, frameOK fr

/-- What a statement lowering may do to the scope stack: the length and
the call/block shape are preserved, and only the top frame and the
innermost call frame may change. -/
structure StmtScopeRel (S T : List Frame) : Prop where
  lenEq : T.length = S.length
  callEq : ∀ (j : Nat), (T[j]?).map Frame.isCall = (S[j]?).map Frame.isCall
  others : ∀ (j : Nat), j ≠ 0 → j ≠ callIdx S → T[j]? = S[j]?

/-- Statement-lowering relation on compile states: the scope-shape
relation together with preservation of the return invariant. -/
def SRel (a b : CState) : Prop :=
  StmtScopeRel a.scope b.scope ∧ (scopeInvP a.scope → scopeInvP b.scope)

/-- What argument binding may do to the scope stack: only the variable,
function and nonlocal/global tables of the top frame change. -/
def TopVars : List Frame → List Frame → Prop
  | [], [] => True
  | s₀ :: Sr, t₀ :: Tr =>
      Tr = Sr ∧ t₀.isCall = s₀.isCall ∧ t₀.breaks = s₀.breaks ∧
      t₀.conts = s₀.conts ∧ t₀.rets = s₀.rets ∧ t₀.retvar = s₀.retvar
  | _, _ => False

theorem stmtScopeRel_refl (S : List Frame) : StmtScopeRel S S :=
  ⟨Eq.refl _, fun _ => Eq.refl _, fun _ _ _ => Eq.refl _⟩

theorem callIdx_congr : ∀ {S T : List Frame},
    (∀ (j : Nat), (T[j]?).map Frame.isCall = (S[j]?).map Frame.isCall) →
    callIdx T = callIdx S
  | [], T, h => by
      cases T with
      | nil => rfl
      | cons t Tr => simpa using h 0
  | s :: Sr, T, h => by
      cases T with
      | nil => simpa using h 0
      | cons t Tr =>
          have h0 : t.isCall = s.isCall := by simpa using h 0
          have ih : callIdx Tr = callIdx Sr :=
            callIdx_congr (fun j => by simpa using h (j + 1))
          unfold callIdx at ih ⊢
          rw [List.findIdx_cons, List.findIdx_cons, h0, ih]

theorem stmtScopeRel_trans {S T U : List Frame} (h1 : StmtScopeRel S T)
    (h2 : StmtScopeRel T U) : StmtScopeRel S U := by
  refine ⟨h2.lenEq.trans h1.lenEq, fun j => (h2.callEq j).trans (h1.callEq j),
    fun j hj0 hjc => ?_⟩
  have hcT : callIdx T = callIdx S := callIdx_congr h1.callEq
  exact (h2.others j hj0 (by rw [hcT]; exact hjc)).trans (h1.others j hj0 hjc)

theorem topVars_refl : ∀ (S : List Frame), TopVars S S
  | [] => trivial
  | _ :: _ => ⟨Eq.refl _, Eq.refl _, Eq.refl _, Eq.refl _, Eq.refl _, Eq.refl _⟩

theorem topVars_trans : ∀ {S T U : List Frame},
    TopVars S T → TopVars T U → TopVars S U
  | [], [], [], _, _ => trivial
  | _ :: _, [], _, h1, _ => absurd h1 (by simp [TopVars])
  | [], _ :: _, _, h1, _ => absurd h1 (by simp [TopVars])
  | _ :: _, _ :: _, [], _, h2 => absurd h2 (by simp [TopVars])
  | s₀ :: Sr, t₀ :: Tr, u₀ :: Ur, h1, h2 => by
      obtain ⟨e1, c1, b1, n1, r1, v1⟩ := h1
      obtain ⟨e2, c2, b2, n2, r2, v2⟩ := h2
      exact ⟨e2.trans e1, c2.trans c1, b2.trans b1, n2.trans n1,
        r2.trans r1, v2.trans v1⟩

theorem TopVars.toRel : ∀ {S T : List Frame}, TopVars S T → StmtScopeRel S T
  | [], [], _ => stmtScopeRel_refl []
  | _ :: _, [], h => absurd h (by simp [TopVars])
  | [], _ :: _, h => absurd h (by simp [TopVars])
  | s₀ :: Sr, t₀ :: Tr, h => by
      obtain ⟨e1, c1, _, _, _, _⟩ := h
      subst e1
      refine ⟨Eq.refl _, fun j => ?_, fun j hj0 _ => ?_⟩
      · cases j with
        | zero => simpa using c1
        | succ i => rfl
      · cases j with
        | zero => exact absurd (Eq.refl 0) hj0
        | succ i => rfl

theorem TopVars.inv : ∀ {S T : List Frame}, TopVars S T →
    scopeInvP S → scopeInvP T
  | [], [], _, _ => fun fr hfr => absurd hfr (List.not_mem_nil fr)
  | _ :: _, [], h, _ => absurd h (by simp [TopVars])
  | [], _ :: _, h, _ => absurd h (by simp [TopVars])
  | s₀ :: Sr, t₀ :: Tr, h, hi => by
      obtain ⟨e1, _, _, _, r1, v1⟩ := h
      subst e1
      intro fr hfr
      rcases List.mem_cons.mp hfr with rfl | hmem
      · have h0 : frameOK s₀ := hi s₀ (List.mem_cons_self _ _)
        unfold frameOK at h0 ⊢
        rw [v1, r1]
        exact h0
      · exact hi fr (List.mem_cons_of_mem _ hmem)

theorem srel_refl (a : CState) : SRel a a :=
  ⟨stmtScopeRel_refl _, id⟩

theorem SRel.trans {a b c : CState} (h1 : SRel a b) (h2 : SRel b c) :
    SRel a c :=
  ⟨stmtScopeRel_trans h1.1 h2.1, fun hi => h2.2 (h1.2 hi)⟩

theorem SRel.of_scope_eq {a b : CState} (h : b.scope = a.scope) : SRel a b :=
  ⟨h ▸ stmtScopeRel_refl _, fun hi => h ▸ hi⟩

theorem SRel.of_topVars {a b : CState} (h : TopVars a.scope b.scope) :
    SRel a b :=
  ⟨h.toRel, h.inv⟩

theorem modify_length (g : Frame → Frame) : ∀ (S : List Frame),
    (modifyInnermostCall g S).length = S.length
  | [] => rfl
  | fr :: rest => by
      by_cases h : fr.isCall <;>
        simp [modifyInnermostCall, h, modify_length g rest]

theorem modify_get? (g : Frame → Frame) : ∀ (S : List Frame) (j : Nat),
    (modifyInnermostCall g S)[j]? =
      if j = callIdx S then (S[j]?).map g else S[j]?
  | [], j => by
      simp [modifyInnermostCall]
  | fr :: rest, j => by
      by_cases h : fr.isCall
      · have hc : callIdx (fr :: rest) = 0 := by
          simp [callIdx, List.findIdx_cons, h]
        cases j with
        | zero => simp [modifyInnermostCall, h, hc]
        | succ i => simp [modifyInnermostCall, h, hc]
      · have hc : callIdx (fr :: rest) = callIdx rest + 1 := by
          simp [callIdx, List.findIdx_cons, h]
        cases j with
        | zero => simp [modifyInnermostCall, h, hc]
        | succ i =>
            simp only [modifyInnermostCall, h, Bool.false_eq_true, if_false,
              hc, List.getElem?_cons_succ]
            rw [modify_get? g rest i]
            simp

theorem modify_rel (g : Frame → Frame)
    (hg : ∀ fr, (g fr).isCall = fr.isCall) (S : List Frame) :
    StmtScopeRel S (modifyInnermostCall g S) := by
  refine ⟨modify_length g S, fun j => ?_, fun j _ hjc => ?_⟩
  · rw [modify_get?]
    by_cases h : j = callIdx S
    · simp only [h, if_true]
      cases S[callIdx S]? <;> simp [hg]
    · simp [h]
  · rw [modify_get?, if_neg hjc]

theorem scopeInvP_modify : ∀ (g : Frame → Frame) (S : List Frame),
    (∀ fr, innermostCall S = some fr → frameOK fr → frameOK (g fr)) →
    scopeInvP S → scopeInvP (modifyInnermostCall g S)
  | _, [], _, _ => fun fr hfr => absurd hfr (List.not_mem_nil fr)
  | g, fr₀ :: rest, hOK, hi => by
      by_cases h : fr₀.isCall
      · simp only [modifyInnermostCall, h, if_true]
        intro fr hfr
        rcases List.mem_cons.mp hfr with rfl | hmem
        · exact hOK fr₀ (by simp [innermostCall, h]) (hi fr₀ (List.mem_cons_self _ _))
        · exact hi fr (List.mem_cons_of_mem _ hmem)
      · simp only [modifyInnermostCall, h, if_false]
        intro fr hfr
        rcases List.mem_cons.mp hfr with rfl | hmem
        · exact hi fr (List.mem_cons_self _ _)
        · exact scopeInvP_modify g rest
            (fun fr2 hfr2 => hOK fr2 (by simp [innermostCall, h, hfr2]))
            (fun fr2 hfr2 => hi fr2 (List.mem_cons_of_mem _ hfr2))
            fr hmem

theorem modify_modify (g₁ g₂ : Frame → Frame)
    (hg : ∀ fr, (g₁ fr).isCall = fr.isCall) : ∀ (S : List Frame),
    modifyInnermostCall g₂ (modifyInnermostCall g₁ S) =
      modifyInnermostCall (fun fr => g₂ (g₁ fr)) S
  | [] => rfl
  | fr :: rest => by
      by_cases h : fr.isCall
      · simp [modifyInnermostCall, h, hg]
      · simp [modifyInnermostCall, h, hg, modify_modify g₁ g₂ hg rest]

theorem modify_cons_call (g : Frame → Frame) (t₀ : Frame) (Tr : List Frame)
    (h : t₀.isCall = true) :
    modifyInnermostCall g (t₀ :: Tr) = g t₀ :: Tr := by
  simp [modifyInnermostCall, h]

theorem frameOK_emptyBlock : frameOK Frame.emptyBlock := by
  unfold frameOK Frame.emptyBlock
  rfl

theorem frameOK_emptyCall : frameOK Frame.emptyCall := by
  unfold frameOK Frame.emptyCall
  rfl

theorem stmtRel_pushPop {S T : List Frame}
    (h : StmtScopeRel (Frame.emptyBlock :: S) T) : StmtScopeRel S T.tail := by
  cases T with
  | nil => exact absurd h.lenEq (by simp)
  | cons t₀ Tr =>
      have hcix : callIdx (Frame.emptyBlock :: S) = callIdx S + 1 := by
        simp [callIdx, List.findIdx_cons, Frame.emptyBlock]
      refine ⟨by simpa using h.lenEq, fun j => by simpa using h.callEq (j + 1),
        fun j _ hjc => ?_⟩
      have := h.others (j + 1) (by omega) (by omega)
      simpa using this

theorem inv_pushPop {S T : List Frame}
    (h : scopeInvP (Frame.emptyBlock :: S) → scopeInvP T)
    (hi : scopeInvP S) : scopeInvP T.tail := by
  have h2 : scopeInvP (Frame.emptyBlock :: S) := by
    intro fr hfr
    rcases List.mem_cons.mp hfr with rfl | hm
    · exact frameOK_emptyBlock
    · exact hi fr hm
  intro fr hfr
  exact h h2 fr (List.mem_of_mem_tail hfr)

theorem srel_pushPop {a b : CState}
    (h : SRel (a.pushScope false) b) : SRel a b.popScope :=
  ⟨stmtRel_pushPop h.1, fun hi => inv_pushPop h.2 hi⟩

theorem callFrame_restore {S T : List Frame} {c : Frame}
    (hc : c.isCall = true) (h : StmtScopeRel (c :: S) T) :
    ∃ t₀, T = t₀ :: S ∧ t₀.isCall = true := by
  cases T with
  | nil => exact absurd h.lenEq (by simp)
  | cons t₀ Tr =>
      have hcix : callIdx (c :: S) = 0 := by
        simp [callIdx, List.findIdx_cons, hc]
      have h0 : t₀.isCall = true := by
        have := h.callEq 0
        simp [hc] at this
        exact this
      have hTr : Tr = S := by
        apply List.ext_getElem?
        intro i
        have := h.others (i + 1) (by omega) (by omega)
        simpa using this
      exact ⟨t₀, by rw [hTr], h0⟩

theorem srel_addBreakS (s : CState) : SRel s s.addBreakS :=
  ⟨modify_rel (fun fr => { fr with breaks := fr.breaks ++ [s.fsm.current] })
     (fun fr => rfl) s.scope,
   fun hi => scopeInvP_modify
     (fun fr => { fr with breaks := fr.breaks ++ [s.fsm.current] })
     s.scope (fun fr _ h => h) hi⟩

theorem srel_addContinueS (s : CState) : SRel s s.addContinueS :=
  ⟨modify_rel (fun fr => { fr with conts := fr.conts ++ [s.fsm.current] })
     (fun fr => rfl) s.scope,
   fun hi => scopeInvP_modify
     (fun fr => { fr with conts := fr.conts ++ [s.fsm.current] })
     s.scope (fun fr _ h => h) hi⟩

theorem srel_clearBreakS (s : CState) : SRel s s.clearBreakS :=
  ⟨modify_rel (fun fr => { fr with breaks := [] }) (fun fr => rfl) s.scope,
   fun hi => scopeInvP_modify (fun fr => { fr with breaks := [] })
     s.scope (fun fr _ h => h) hi⟩

theorem srel_clearContinueS (s : CState) : SRel s s.clearContinueS :=
  ⟨modify_rel (fun fr => { fr with conts := [] }) (fun fr => rfl) s.scope,
   fun hi => scopeInvP_modify (fun fr => { fr with conts := [] })
     s.scope (fun fr _ h => h) hi⟩

theorem srel_addReturnS_none (s : CState) : SRel s (s.addReturnS none) :=
  ⟨modify_rel (fun fr => { fr with rets := fr.rets ++ [(s.fsm.current, none)] })
     (fun fr => rfl) s.scope,
   fun hi => scopeInvP_modify
     (fun fr => { fr with rets := fr.rets ++ [(s.fsm.current, none)] })
     s.scope
     (fun fr _ h => by
       unfold frameOK at h ⊢
       simpa [List.any_append] using h) hi⟩

theorem topVars_addVariableS (s : CState) (nm : String) (v : PyVal) :
    TopVars s.scope (s.addVariableS nm v).scope := by
  unfold CState.addVariableS
  split
  · exact topVars_refl _
  · next fr rest heq =>
      rw [heq]
      exact ⟨rfl, rfl, rfl, rfl, rfl, rfl⟩

theorem topVars_addFunctionS (s : CState) (nm : String) (fd : FuncDef) :
    TopVars s.scope (s.addFunctionS nm fd).scope := by
  unfold CState.addFunctionS
  split
  · exact topVars_refl _
  · next fr rest heq =>
      rw [heq]
      exact ⟨rfl, rfl, rfl, rfl, rfl, rfl⟩

theorem topVars_addNonlocalS (s : CState) (nm : String) :
    TopVars s.scope (s.addNonlocalS nm).scope := by
  unfold CState.addNonlocalS
  split
  · exact topVars_refl _
  · next fr rest heq =>
      rw [heq]
      exact ⟨rfl, rfl, rfl, rfl, rfl, rfl⟩

theorem topVars_addGlobalS (s : CState) (nm : String) :
    TopVars s.scope (s.addGlobalS nm).scope := by
  unfold CState.addGlobalS
  split
  · exact topVars_refl _
  · next fr rest heq =>
      rw [heq]
      exact ⟨rfl, rfl, rfl, rfl, rfl, rfl⟩

theorem makeVariableS_scope (s : CState) (nm : String) :
    (s.makeVariableS nm).2.scope = s.scope := rfl

theorem topVars_getVariableS (s : CState) (nm : String) (store : Bool)
    (v : PyVal) (s' : CState) (h : s.getVariableS nm store = some (v, s')) :
    TopVars s.scope s'.scope := by
  unfold CState.getVariableS at h
  cases hsv : searchVariableL s.scope nm store with
  | some w =>
      rw [hsv] at h
      simp at h
      rw [← h.2]
      exact topVars_refl _
  | none =>
      rw [hsv] at h
      cases store with
      | false => simp at h
      | true =>
          simp only [Bool.not_true, Bool.false_eq_true, if_false] at h
          cases hmk : s.makeVariableS nm with
          | mk rg s₁ =>
              rw [hmk] at h
              dsimp only at h
              have hs₁ : s₁.scope = s.scope := by
                have := makeVariableS_scope s nm
                rw [hmk] at this
                exact this
              have htv : TopVars s.scope (s₁.addVariableS nm (.ir rg)).scope := by
                rw [← hs₁]
                exact topVars_addVariableS s₁ nm (.ir rg)
              cases hsv2 : searchVariableL (s₁.addVariableS nm (PyVal.ir rg)).scope nm false with
              | some w2 =>
                  rw [hsv2] at h
                  simp at h
                  rw [← h.2]
                  exact htv
              | none =>
                  rw [hsv2] at h
                  simp at h
                  rw [← h.2]
                  exact htv

theorem topVars_getTmpVariableS (s : CState) :
    TopVars s.scope (s.getTmpVariableS).2.scope := by
  unfold CState.getTmpVariableS CState.tmpNameS
  dsimp only
  cases hgv : ({ s with tmpCount := s.tmpCount + 1 } : CState).getVariableS
      ("tmp" ++ "_" ++ toString s.tmpCount) true with
  | some r =>
      dsimp only
      exact topVars_getVariableS { s with tmpCount := s.tmpCount + 1 }
        ("tmp" ++ "_" ++ toString s.tmpCount) true r.1 r.2 (by rw [hgv])
  | none =>
      dsimp only
      exact topVars_refl _

theorem topVars_setArgBind (s : CState) (nm : String) (v : PyVal) :
    TopVars s.scope (setArgBind s nm v).scope := by
  unfold setArgBind
  split
  · exact topVars_addVariableS s nm v
  · cases hgv : s.getVariableS nm true with
    | some r =>
        obtain ⟨left, s₁⟩ := r
        have h2 := topVars_getVariableS s nm true left s₁ hgv
        cases left <;> simpa using h2
    | none => exact topVars_refl _

theorem topVars_bindPositional : ∀ (params : List String)
    (argVals : List PyVal) (s s' : CState),
    bindPositional s params argVals = .ok s' → TopVars s.scope s'.scope
  | _, [], s, s', h => by
      unfold bindPositional at h
      split at h
      · cases h; exact topVars_refl _
      · cases h
      · simp_all
  | [], _ :: _, s, s', h => by
      unfold bindPositional at h
      simp at h
  | p :: ps, v :: vs, s, s', h => by
      unfold bindPositional at h
      exact topVars_trans (topVars_setArgBind s p v)
        (topVars_bindPositional ps vs _ s' h)

theorem topVars_bindKeywords : ∀ (kwVals : List (String × PyVal)) (s : CState),
    TopVars s.scope (bindKeywords s kwVals).scope
  | [], s => topVars_refl _
  | kv :: rest, s => by
      unfold bindKeywords
      simp only [List.foldl_cons]
      exact topVars_trans (topVars_setArgBind s kv.1 kv.2)
        (topVars_bindKeywords rest (setArgBind s kv.1 kv.2))

theorem topVars_foldl_addNonlocalS : ∀ (nms : List String) (s : CState),
    TopVars s.scope (nms.foldl (fun acc nm => acc.addNonlocalS nm) s).scope
  | [], s => topVars_refl _
  | nm :: rest, s => by
      simp only [List.foldl_cons]
      exact topVars_trans (topVars_addNonlocalS s nm)
        (topVars_foldl_addNonlocalS rest (s.addNonlocalS nm))

theorem topVars_foldl_addGlobalS : ∀ (nms : List String) (s : CState),
    TopVars s.scope (nms.foldl (fun acc nm => acc.addGlobalS nm) s).scope
  | [], s => topVars_refl _
  | nm :: rest, s => by
      simp only [List.foldl_cons]
      exact topVars_trans (topVars_addGlobalS s nm)
        (topVars_foldl_addGlobalS rest (s.addGlobalS nm))

theorem topVars_setBindS (s : CState) (v : Option IR) (x : PyVal)
    (c : Option IR) : TopVars s.scope (s.setBindS v x c).scope :=
  topVars_refl _

theorem topVars_setAssignBind (s : CState) (dst : Targ) (var : PyVal)
    (value : PyVal) (s' : CState) (h : setAssignBind s dst var value = .ok s') :
    TopVars s.scope s'.scope := by
  unfold setAssignBind at h
  split at h
  · split at h
    · next nm => cases h; exact topVars_addVariableS s nm value
    · cases h
  · split at h
    · cases h; exact topVars_refl _
    · cases h

mutual

theorem topVars_theAssign (s : CState) (rl : Targ) (l r : PyVal) (s' : CState)
    (h : theAssign s rl l r = .ok s') : TopVars s.scope s'.scope := by
  cases rl <;> cases r <;> cases l <;>
    (rw [theAssign] at h
     all_goals
       repeat
         first
           | (exact fun _ hh => PyVal.noConfusion hh)
           | (exact fun _ hh => Targ.noConfusion hh)
           | (exact topVars_setAssignBind _ _ _ _ _ h)
           | (exact topVars_addVariableS _ _ _)
           | (exact topVars_setBindS _ _ _ _)
           | cases h
           | split at h
           | (exfalso; simp_all; done)
           | (exact topVars_theAssignZip s _ _ _ s' h))
termination_by sizeOf l

theorem topVars_theAssignZip (s : CState) (rds : List Targ) (ds rs : List PyVal)
    (s' : CState) (h : theAssignZip s rds ds rs = .ok s') :
    TopVars s.scope s'.scope := by
  match rds, ds, rs with
  | rd :: rds2, d :: ds2, r :: rs2 =>
      rw [theAssignZip] at h
      cases hone : theAssign s rd d r with
      | error err => rw [hone] at h; cases h
      | ok s₁ =>
          rw [hone] at h
          exact topVars_trans (topVars_theAssign s rd d r s₁ hone)
            (topVars_theAssignZip s₁ rds2 ds2 rs2 s' h)
  | [], ds, rs =>
      rw [theAssignZip] at h
      all_goals
        first
          | (cases h; exact topVars_refl _)
          | (intro rd2 rds3 d2 ds3 r2 rrs hh1 hh2 hh3
             simp_all)
  | rd :: rds2, [], rs =>
      rw [theAssignZip] at h
      all_goals
        first
          | (cases h; exact topVars_refl _)
          | (intro rd2 rds3 d2 ds3 r2 rrs hh1 hh2 hh3
             simp_all)
  | rd :: rds2, d :: ds2, [] =>
      rw [theAssignZip] at h
      all_goals
        first
          | (cases h; exact topVars_refl _)
          | (intro rd2 rds3 d2 ds3 r2 rrs hh1 hh2 hh3
             simp_all)
termination_by sizeOf ds

end

theorem topVars_assignAll : ∀ (raws : List Targ) (lefts : List PyVal)
    (s : CState) (right : PyVal) (s' : CState),
    assignAll s raws lefts right = .ok s' → TopVars s.scope s'.scope
  | rd :: rds, l :: ls, s, right, s', h => by
      rw [assignAll] at h
      cases hone : theAssign s rd l right with
      | error err => rw [hone] at h; cases h
      | ok s₁ =>
          rw [hone] at h
          exact topVars_trans (topVars_theAssign _ _ _ _ _ hone)
            (topVars_assignAll rds ls s₁ right s' h)
  | [], lefts, s, right, s', h => by
      rw [assignAll] at h
      all_goals
        first
          | (cases h; exact topVars_refl _)
          | (intro a b c d hh1 hh2; simp_all)
  | rd :: rds, [], s, right, s', h => by
      rw [assignAll] at h
      all_goals
        first
          | (cases h; exact topVars_refl _)
          | (intro a b c d hh1 hh2; simp_all)


mutual

theorem topVars_visitTarget (t : Targ) : ∀ (s : CState) (r : PyVal)
    (s' : CState), visitTarget s t = .ok (r, s') → TopVars s.scope s'.scope :=
  match t with
  | .nameT n => by
      intro s r s' h
      unfold visitTarget at h
      split at h
      · rename_i x r1 hp
        injection h with h2
        subst h2
        exact topVars_getVariableS s n true r s' hp
      · cases h
  | .tupT ts => by
      intro s r s' h
      unfold visitTarget at h
      split at h
      · rename_i x vs s₁ hts
        cases h
        exact topVars_visitTargets ts s vs _ hts
      · cases h

theorem topVars_visitTargets (ts : List Targ) : ∀ (s : CState)
    (rs : List PyVal) (s' : CState),
    visitTargets s ts = .ok (rs, s') → TopVars s.scope s'.scope :=
  match ts with
  | [] => by
      intro s rs s' h
      unfold visitTargets at h
      cases h
      exact topVars_refl _
  | t :: rest => by
      intro s rs s' h
      unfold visitTargets at h
      split at h
      · rename_i x v s₁ hone
        split at h
        · rename_i x2 vs s₂ hrest
          cases h
          exact topVars_trans (topVars_visitTarget t s v _ hone)
            (topVars_visitTargets rest _ vs _ hrest)
        · cases h
      · cases h

end

/-- Expression lowering leaves the scope stack untouched (its inner
inlined calls push and pop balanced call frames). -/
def PExpr (f : Nat) : Prop :=
  ∀ e s r s', visitExpr f e s = .ok (r, s') → s'.scope = s.scope

def PExprs (f : Nat) : Prop :=
  ∀ es s rs s', visitExprs f es s = .ok (rs, s') → s'.scope = s.scope

def PKw (f : Nat) : Prop :=
  ∀ kws s rs s', visitKeywords f kws s = .ok (rs, s') → s'.scope = s.scope

def PBool (f : Nat) : Prop :=
  ∀ vop vals acc s r s',
    boolFoldVisit f vop vals acc s = .ok (r, s') → s'.scope = s.scope

def PPrintCall (f : Nat) : Prop :=
  ∀ args s r s', callNamePrint f args s = .ok (r, s') → s'.scope = s.scope

def PPrintArgs (f : Nat) : Prop :=
  ∀ args fmt avs s r s',
    visitPrintArgs f args fmt avs s = .ok (r, s') → s'.scope = s.scope

def PTupleElts (f : Nat) : Prop :=
  ∀ elts fmt avs s r s',
    printTupleElts f elts fmt avs s = .ok (r, s') → s'.scope = s.scope

def PBinopMod (f : Nat) : Prop :=
  ∀ rhs s r s', printBinopMod f rhs s = .ok (r, s') → s'.scope = s.scope

def PInt (f : Nat) : Prop :=
  ∀ args s r s', callNameInt f args s = .ok (r, s') → s'.scope = s.scope

def PCnf (f : Nat) : Prop :=
  ∀ fd avs kvs s r s',
    callNameFunction f fd avs kvs s = .ok (r, s') → s'.scope = s.scope

def PDefaults (f : Nat) : Prop :=
  ∀ prs s s', bindDefaults f prs s = .ok s' → TopVars s.scope s'.scope

def PVnf (f : Nat) : Prop :=
  ∀ body s r s', visitNextFunction f body s = .ok (r, s') → SRel s s'

def PRange (f : Nat) : Prop :=
  ∀ args s r s', lowerRangeArgs f args s = .ok (r, s') → s'.scope = s.scope

def PStmt (f : Nat) : Prop :=
  ∀ st s s', visitStmt f st s = .ok s' → SRel s s'

def PStmts (f : Nat) : Prop :=
  ∀ sts s s', visitStmts f sts s = .ok s' → SRel s s'

theorem getVariableS_false_state (s : CState) (nm : String) (v : PyVal)
    (s' : CState) (h : s.getVariableS nm false = some (v, s')) : s' = s := by
  unfold CState.getVariableS at h
  split at h
  · injection h with h2
    exact (congrArg Prod.snd h2).symm
  · simp at h

theorem step_PExprs (f : Nat) (ihE : PExpr f) (ihEs : PExprs f) :
    PExprs (f + 1) := by
  intro es s rs s' h
  cases es with
  | nil =>
      unfold visitExprs at h
      cases h
      rfl
  | cons e rest =>
      unfold visitExprs at h
      cases hv : visitExpr f e s with
      | error err => rw [hv] at h; cases h
      | ok p =>
          rw [hv] at h
          obtain ⟨v, s₁⟩ := p
          dsimp only at h
          cases hrest : visitExprs f rest s₁ with
          | error err => rw [hrest] at h; cases h
          | ok p2 =>
              rw [hrest] at h
              obtain ⟨vs, s₂⟩ := p2
              dsimp only at h
              cases h
              exact (ihEs _ _ _ _ hrest).trans (ihE _ _ _ _ hv)

theorem step_PKw (f : Nat) (ihE : PExpr f) (ihKw : PKw f) :
    PKw (f + 1) := by
  intro kws s rs s' h
  cases kws with
  | nil =>
      unfold visitKeywords at h
      cases h
      rfl
  | cons kv rest =>
      obtain ⟨nm, e⟩ := kv
      unfold visitKeywords at h
      cases hv : visitExpr f e s with
      | error err => rw [hv] at h; cases h
      | ok p =>
          rw [hv] at h
          obtain ⟨v, s₁⟩ := p
          dsimp only at h
          cases hrest : visitKeywords f rest s₁ with
          | error err => rw [hrest] at h; cases h
          | ok p2 =>
              rw [hrest] at h
              obtain ⟨vs, s₂⟩ := p2
              dsimp only at h
              cases h
              exact (ihKw _ _ _ _ hrest).trans (ihE _ _ _ _ hv)

theorem step_PBool (f : Nat) (ihE : PExpr f) (ihBool : PBool f) :
    PBool (f + 1) := by
  intro vop vals acc s r s' h
  cases vals with
  | nil =>
      unfold boolFoldVisit at h
      cases h
      rfl
  | cons v rest =>
      unfold boolFoldVisit at h
      cases hv : visitExpr f v s with
      | error err => rw [hv] at h; cases h
      | ok p =>
          rw [hv] at h
          obtain ⟨rv, s₁⟩ := p
          dsimp only at h
          split at h
          · exact (ihBool _ _ _ _ _ _ h).trans (ihE _ _ _ _ hv)
          · cases h

theorem step_PBinopMod (f : Nat) (ihE : PExpr f) (ihEs : PExprs f) :
    PBinopMod (f + 1) := by
  intro rhs s r s' h
  unfold printBinopMod at h
  split at h
  · exact ihEs _ _ _ _ h
  · exact ihEs _ _ _ _ h
  · cases hv : visitExpr f rhs s with
    | error err => rw [hv] at h; cases h
    | ok p =>
        rw [hv] at h
        obtain ⟨v, s₁⟩ := p
        dsimp only at h
        cases h
        exact ihE _ _ _ _ hv

theorem step_PInt (f : Nat) (ihEs : PExprs f) : PInt (f + 1) := by
  intro args s r s' h
  unfold callNameInt at h
  split at h
  · cases h
  · cases hv : visitExprs f args s with
    | error err => rw [hv] at h; cases h
    | ok p =>
        rw [hv] at h
        obtain ⟨vals, s₁⟩ := p
        dsimp only at h
        split at h
        · cases h
          exact ihEs _ _ _ _ hv
        · cases h

theorem step_PRange (f : Nat) (ihE : PExpr f) : PRange (f + 1) := by
  intro args s r s' h
  unfold lowerRangeArgs at h
  split at h
  · cases h
  · rename_i a
    cases hv : visitExpr f a s with
    | error err => rw [hv] at h; cases h
    | ok p =>
        rw [hv] at h
        obtain ⟨ev, s₁⟩ := p
        dsimp only at h
        split at h
        · cases h
          exact ihE _ _ _ _ hv
        · cases h
  · rename_i a b
    cases hv : visitExpr f a s with
    | error err => rw [hv] at h; cases h
    | ok p =>
        rw [hv] at h
        obtain ⟨bv, s₁⟩ := p
        dsimp only at h
        cases hv2 : visitExpr f b s₁ with
        | error err => rw [hv2] at h; cases h
        | ok p2 =>
            rw [hv2] at h
            obtain ⟨ev, s₂⟩ := p2
            dsimp only at h
            split at h
            · cases h
              exact (ihE _ _ _ _ hv2).trans (ihE _ _ _ _ hv)
            · cases h
  · rename_i a b c rest
    cases hv : visitExpr f a s with
    | error err => rw [hv] at h; cases h
    | ok p =>
        rw [hv] at h
        obtain ⟨bv, s₁⟩ := p
        dsimp only at h
        cases hv2 : visitExpr f b s₁ with
        | error err => rw [hv2] at h; cases h
        | ok p2 =>
            rw [hv2] at h
            obtain ⟨ev, s₂⟩ := p2
            dsimp only at h
            cases hv3 : visitExpr f c s₂ with
            | error err => rw [hv3] at h; cases h
            | ok p3 =>
                rw [hv3] at h
                obtain ⟨cv, s₃⟩ := p3
                dsimp only at h
                split at h
                · cases h
                  exact ((ihE _ _ _ _ hv3).trans
                    (ihE _ _ _ _ hv2)).trans (ihE _ _ _ _ hv)
                · cases h

theorem step_PTupleElts (f : Nat) (ihE : PExpr f) (ihT : PTupleElts f) :
    PTupleElts (f + 1) := by
  intro elts fmt avs s r s' h
  cases elts with
  | nil =>
      unfold printTupleElts at h
      cases h
      rfl
  | cons e rest =>
      unfold printTupleElts at h
      cases hv : visitExpr f e s with
      | error err => rw [hv] at h; cases h
      | ok p =>
          rw [hv] at h
          obtain ⟨v, s₁⟩ := p
          dsimp only at h
          split at h
          · exact (ihT _ _ _ _ _ _ h).trans (ihE _ _ _ _ hv)
          · exact (ihT _ _ _ _ _ _ h).trans (ihE _ _ _ _ hv)

theorem step_PPrintArgs (f : Nat) (ihE : PExpr f) (ihBM : PBinopMod f)
    (ihT : PTupleElts f) (ihPA : PPrintArgs f) : PPrintArgs (f + 1) := by
  intro args fmt avs s r s' h
  cases args with
  | nil =>
      unfold visitPrintArgs at h
      cases h
      rfl
  | cons arg rest =>
      unfold visitPrintArgs at h
      split at h
      · rename_i form rhs
        cases hv : printBinopMod f rhs s with
        | error err => rw [hv] at h; cases h
        | ok p =>
            rw [hv] at h
            obtain ⟨vals, s₁⟩ := p
            dsimp only at h
            exact (ihPA _ _ _ _ _ _ h).trans (ihBM _ _ _ _ hv)
      · rename_i elts
        cases hv : printTupleElts f elts fmt avs s with
        | error err => rw [hv] at h; cases h
        | ok p =>
            rw [hv] at h
            obtain ⟨fa, s₁⟩ := p
            obtain ⟨fmt₁, avs₁⟩ := fa
            dsimp only at h
            exact (ihPA _ _ _ _ _ _ h).trans (ihT _ _ _ _ _ _ hv)
      all_goals
        split at h
        · exact Except.noConfusion h
        · rename_i v s₁ hv
          split at h <;> exact (ihPA _ _ _ _ _ _ h).trans (ihE _ _ _ _ hv)

theorem step_PPrintCall (f : Nat) (ihPA : PPrintArgs f) : PPrintCall (f + 1) := by
  intro args s r s' h
  unfold callNamePrint at h
  cases hv : visitPrintArgs f args [] [] s with
  | error err => rw [hv] at h; cases h
  | ok p =>
      rw [hv] at h
      obtain ⟨fa, s₁⟩ := p
      obtain ⟨fmtList, argvalues⟩ := fa
      dsimp only at h
      cases h
      have h1 := ihPA _ _ _ _ _ _ hv
      exact h1

theorem step_PDefaults (f : Nat) (ihE : PExpr f) (ihD : PDefaults f) :
    PDefaults (f + 1) := by
  intro prs s s' h
  cases prs with
  | nil =>
      unfold bindDefaults at h
      cases h
      exact topVars_refl _
  | cons pd rest =>
      obtain ⟨pname, dflt⟩ := pd
      unfold bindDefaults at h
      split at h
      · exact ihD _ _ _ h
      · cases hv : visitExpr f dflt s with
        | error err => rw [hv] at h; cases h
        | ok p =>
            rw [hv] at h
            obtain ⟨v, s₁⟩ := p
            dsimp only at h
            have h1 : TopVars s.scope s₁.scope := by
              rw [ihE _ _ _ _ hv]
              exact topVars_refl _
            exact topVars_trans
              (topVars_trans h1 (topVars_setArgBind s₁ pname v)) (ihD _ _ _ h)

theorem step_PVnf (f : Nat) (ihSts : PStmts f) : PVnf (f + 1) := by
  intro body s r s' h
  unfold visitNextFunction at h
  cases hv : visitStmts f body s with
  | error err => rw [hv] at h; cases h
  | ok s₁ =>
      rw [hv] at h
      dsimp only at h
      split at h <;> (cases h; exact ihSts _ _ _ hv)

theorem foldl_retpatch_scope (L : List (Nat × Option PyVal)) (dst : Nat)
    (s : CState) :
    (L.foldl (fun acc rc => acc.setFsmT (some rc.1) (some dst) none none) s).scope
      = s.scope := by
  induction L generalizing s with
  | nil => rfl
  | cons b rest ih => simp [List.foldl_cons, ih]

theorem getUnresolvedReturnS_scope_congr {a b : CState} (h : a.scope = b.scope) :
    a.getUnresolvedReturnS = b.getUnresolvedReturnS := by
  simp [CState.getUnresolvedReturnS, h]

theorem getReturnVariableS_scope_congr {a b : CState} (h : a.scope = b.scope) :
    a.getReturnVariableS = b.getReturnVariableS := by
  simp [CState.getReturnVariableS, h]

theorem clears_pop_scope (x : CState) (t₀ : Frame) (Sr : List Frame)
    (hx : x.scope = t₀ :: Sr) (ht : t₀.isCall = true) :
    x.clearBreakS.clearContinueS.clearReturnS.clearReturnVariableS.popScope.scope
      = Sr := by
  simp only [CState.clearBreakS, CState.clearContinueS, CState.clearReturnS,
    CState.clearReturnVariableS, CState.popScope, hx]
  simp only [modifyInnermostCall, ht, if_true, List.tail_cons]

theorem step_PCnf (f : Nat) (ihD : PDefaults f) (ihV : PVnf f) :
    PCnf (f + 1) := by
  intro fd avs kvs s r s' h
  unfold callNameFunction at h
  dsimp only at h
  cases hpos : bindPositional (s.pushScope true) fd.1 avs with
  | error err => rw [hpos] at h; cases h
  | ok s₂ =>
      rw [hpos] at h
      dsimp only at h
      cases hdef : bindDefaults f (zipDefaults fd.1 fd.2.1) (bindKeywords s₂ kvs) with
      | error err => rw [hdef] at h; cases h
      | ok s₄ =>
          rw [hdef] at h
          dsimp only at h
          cases hbody : visitNextFunction f fd.2.2
              ((s₄.setFsmT none none none none).incFsm) with
          | error err => rw [hbody] at h; cases h
          | ok p =>
              rw [hbody] at h
              obtain ⟨ret, s₆⟩ := p
              dsimp only at h
              cases h
              have hTV : TopVars (Frame.emptyCall :: s.scope) s₂.scope :=
                topVars_bindPositional fd.1 avs (s.pushScope true) s₂ hpos
              have hTV4 : TopVars (Frame.emptyCall :: s.scope) s₄.scope :=
                topVars_trans (topVars_trans hTV
                  (topVars_bindKeywords kvs s₂)) (ihD _ _ _ hdef)
              have hRel : StmtScopeRel (Frame.emptyCall :: s.scope) s₆.scope :=
                stmtScopeRel_trans hTV4.toRel (ihV _ _ _ _ hbody).1
              have hc : Frame.emptyCall.isCall = true := rfl
              obtain ⟨t₀, hT, ht₀⟩ := callFrame_restore hc hRel
              exact clears_pop_scope _ t₀ s.scope
                (by rw [foldl_retpatch_scope]; exact hT) ht₀

theorem step_PExpr (f : Nat) (ihEs : PExprs f) (ihKw : PKw f) (ihBool : PBool f)
    (ihPC : PPrintCall f) (ihInt : PInt f) (ihCnf : PCnf f) (ihE : PExpr f) :
    PExpr (f + 1) := by
  intro e s r s' h
  unfold visitExpr at h
  cases e with
  | num n => cases h; rfl
  | strL sv => cases h; rfl
  | nameL id =>
      dsimp only at h
      split at h
      · cases h; rfl
      · split at h
        · cases h; rfl
        · split at h
          · cases h; rfl
          · split at h
            · rename_i p hp
              injection h with h2
              rw [h2] at hp
              rw [getVariableS_false_state s id r s' hp]
            · cases h
  | unaryOp op operand =>
      dsimp only at h
      cases hv : visitExpr f operand s with
      | error err => rw [hv] at h; cases h
      | ok p =>
          rw [hv] at h
          obtain ⟨v, s₁⟩ := p
          dsimp only at h
          split at h
          · cases h
          · split at h <;> first
              | (cases h; exact ihE _ _ _ _ hv)
              | cases h
  | binOp op l rhs =>
      dsimp only at h
      cases hv : visitExpr f l s with
      | error err => rw [hv] at h; cases h
      | ok p =>
          rw [hv] at h
          obtain ⟨lv, s₁⟩ := p
          dsimp only at h
          cases hv2 : visitExpr f rhs s₁ with
          | error err => rw [hv2] at h; cases h
          | ok p2 =>
              rw [hv2] at h
              obtain ⟨rv, s₂⟩ := p2
              dsimp only at h
              split at h
              · cases h
                exact (ihE _ _ _ _ hv2).trans (ihE _ _ _ _ hv)
              · cases h
  | boolOp op values =>
      dsimp only at h
      split at h
      · cases h
      · split at h
        · cases h
        · rename_i v0 rest
          cases hv : visitExpr f v0 s with
          | error err => rw [hv] at h; cases h
          | ok p =>
              rw [hv] at h
              obtain ⟨r0, s₁⟩ := p
              dsimp only at h
              exact (ihBool _ _ _ _ _ _ h).trans (ihE _ _ _ _ hv)
  | compare left ops comparators =>
      dsimp only at h
      cases hv : visitExpr f left s with
      | error err => rw [hv] at h; cases h
      | ok p =>
          rw [hv] at h
          obtain ⟨lv, s₁⟩ := p
          dsimp only at h
          cases hv2 : visitExprs f comparators s₁ with
          | error err => rw [hv2] at h; cases h
          | ok p2 =>
              rw [hv2] at h
              obtain ⟨cvs, s₂⟩ := p2
              dsimp only at h
              split at h
              · cases h
              · cases h
                exact (ihEs _ _ _ _ hv2).trans (ihE _ _ _ _ hv)
  | ifExp test body orelse =>
      dsimp only at h
      cases hv : visitExpr f test s with
      | error err => rw [hv] at h; cases h
      | ok p =>
          rw [hv] at h
          obtain ⟨tv, s₁⟩ := p
          dsimp only at h
          cases hv2 : visitExpr f body s₁ with
          | error err => rw [hv2] at h; cases h
          | ok p2 =>
              rw [hv2] at h
              obtain ⟨bv, s₂⟩ := p2
              dsimp only at h
              cases hv3 : visitExpr f orelse s₂ with
              | error err => rw [hv3] at h; cases h
              | ok p3 =>
                  rw [hv3] at h
                  obtain ⟨ov, s₃⟩ := p3
                  dsimp only at h
                  split at h <;> first
                    | (cases h
                       exact ((ihE _ _ _ _ hv3).trans
                         (ihE _ _ _ _ hv2)).trans (ihE _ _ _ _ hv))
                    | cases h
  | tupleE elts =>
      dsimp only at h
      cases hv : visitExprs f elts s with
      | error err => rw [hv] at h; cases h
      | ok p =>
          rw [hv] at h
          obtain ⟨vs, s₁⟩ := p
          dsimp only at h
          cases h
          exact ihEs _ _ _ _ hv
  | listE elts =>
      dsimp only at h
      cases hv : visitExprs f elts s with
      | error err => rw [hv] at h; cases h
      | ok p =>
          rw [hv] at h
          obtain ⟨vs, s₁⟩ := p
          dsimp only at h
          cases h
          exact ihEs _ _ _ _ hv
  | call fname args kws =>
      dsimp only at h
      split at h
      · cases h; rfl
      · split at h
        · exact ihPC _ _ _ _ h
        · split at h
          · exact ihInt _ _ _ _ h
          · split at h
            · cases h
            · rename_i fd hfd
              cases hv : visitExprs f args s with
              | error err => rw [hv] at h; cases h
              | ok p =>
                  rw [hv] at h
                  obtain ⟨argVals, s₁⟩ := p
                  dsimp only at h
                  cases hv2 : visitKeywords f kws s₁ with
                  | error err => rw [hv2] at h; cases h
                  | ok p2 =>
                      rw [hv2] at h
                      obtain ⟨kwVals, s₂⟩ := p2
                      dsimp only at h
                      exact ((ihCnf _ _ _ _ _ _ h).trans
                        (ihKw _ _ _ _ hv2)).trans (ihEs _ _ _ _ hv)

theorem srel_pushPop_scope {a m b : CState}
    (hm : m.scope = Frame.emptyBlock :: a.scope) (h : SRel m b) :
    SRel a b.popScope := by
  refine ⟨stmtRel_pushPop ?_, fun hi => inv_pushPop ?_ hi⟩
  · rw [← hm]; exact h.1
  · intro h2; rw [← hm] at h2; exact h.2 h2

theorem srel_addReturnS_some (x : CState) (w : PyVal)
    (hx : x.getReturnVariableS.isSome = true) :
    SRel x (x.addReturnS (some w)) :=
  ⟨modify_rel (fun fr => { fr with rets := fr.rets ++ [(x.fsm.current, some w)] })
     (fun fr => rfl) x.scope,
   fun hi => scopeInvP_modify
     (fun fr => { fr with rets := fr.rets ++ [(x.fsm.current, some w)] })
     x.scope
     (fun fr hfr h => by
       unfold frameOK at h ⊢
       unfold CState.getReturnVariableS at hx
       rw [hfr] at hx
       simp [List.any_append, hx]) hi⟩

theorem srel_first_return (s s₁ s₃ : CState) (tv : IR) (right : PyVal)
    (hTV : TopVars s.scope s₁.scope)
    (h3 : s₃.scope = (s₁.setReturnVariableS (PyVal.ir tv)).scope) :
    SRel s (((s₃.setBindS (some tv) right none).addReturnS (some right)).incFsm) := by
  have hsc : ((((s₃.setBindS (some tv) right none).addReturnS
        (some right)).incFsm)).scope
      = modifyInnermostCall
          (fun fr =>
            { (fun fr2 => { fr2 with retvar := some (PyVal.ir tv) } : Frame → Frame) fr with
              rets := ((fun fr2 => { fr2 with retvar := some (PyVal.ir tv) } : Frame → Frame) fr).rets
                ++ [((s₃.setBindS (some tv) right none).fsm.current, some right)] })
          s₁.scope := by
    have e1 : ((((s₃.setBindS (some tv) right none).addReturnS
          (some right)).incFsm)).scope
        = modifyInnermostCall
            (fun fr => { fr with
              rets := fr.rets ++ [((s₃.setBindS (some tv) right none).fsm.current, some right)] })
            s₃.scope := rfl
    rw [e1, h3]
    exact modify_modify (fun fr => { fr with retvar := some (PyVal.ir tv) })
      (fun fr => { fr with
        rets := fr.rets ++ [((s₃.setBindS (some tv) right none).fsm.current, some right)] })
      (fun fr => rfl) s₁.scope
  refine ⟨stmtScopeRel_trans hTV.toRel ?_, fun hi => ?_⟩
  · rw [hsc]
    apply modify_rel
    intro fr
    rfl
  · rw [hsc]
    refine scopeInvP_modify _ _ ?_ (hTV.inv hi)
    intro fr hfr hOK
    unfold frameOK
    simp [List.any_append]

theorem step_PStmt (f : Nat) (ihE : PExpr f) (ihPA : PPrintArgs f)
    (ihR : PRange f) (ihSts : PStmts f) : PStmt (f + 1) := by
  intro st s s' h
  unfold visitStmt at h
  cases st with
  | assignS targets value =>
      dsimp only at h
      split at h
      · cases h; exact srel_refl s
      · cases hv : visitExpr f value s with
        | error err => rw [hv] at h; cases h
        | ok p =>
            rw [hv] at h
            obtain ⟨right, s₁⟩ := p
            dsimp only at h
            split at h
            · cases h
            · rename_i lefts s₂ hts
              split at h
              · cases h
              · rename_i s₃ hassign
                cases h
                refine SRel.trans (SRel.of_scope_eq (ihE _ _ _ _ hv)) ?_
                refine SRel.trans
                  (SRel.of_topVars (topVars_visitTargets targets _ _ _ hts)) ?_
                refine SRel.trans
                  (SRel.of_topVars (topVars_assignAll _ _ _ _ _ hassign)) ?_
                exact SRel.of_scope_eq rfl
  | augAssignS target op value =>
      dsimp only at h
      split at h
      · cases h; exact srel_refl s
      · cases hv : visitExpr f value s with
        | error err => rw [hv] at h; cases h
        | ok p =>
            rw [hv] at h
            obtain ⟨right, s₁⟩ := p
            dsimp only at h
            split at h
            · cases h
            · rename_i leftv s₂ hgv
              split at h
              · cases h
              · split at h <;> first
                  | (cases h
                     exact ((SRel.of_scope_eq (ihE _ _ _ _ hv)).trans
                       (SRel.of_topVars
                         (topVars_getVariableS _ _ _ _ _ hgv))).trans
                       (SRel.of_scope_eq rfl))
                  | cases h
  | ifS test body orelse =>
      dsimp only at h
      split at h
      · cases h; exact srel_refl s
      · cases hv : visitExpr f test s with
        | error err => rw [hv] at h; cases h
        | ok p =>
            rw [hv] at h
            obtain ⟨tv, s₁⟩ := p
            dsimp only at h
            split at h
            · rename_i testIR
              try dsimp only at h
              cases hb : visitStmts f body ((s₁.incFsm).pushScope false) with
              | error err => rw [hb] at h; cases h
              | ok s₄ =>
                  rw [hb] at h
                  dsimp only at h
                  split at h
                  · cases h
                    have A : SRel s s₁ := SRel.of_scope_eq (ihE _ _ _ _ hv)
                    have B : SRel s₁ s₁.incFsm := SRel.of_scope_eq rfl
                    have C : SRel s₁.incFsm s₄.popScope :=
                      srel_pushPop (ihSts _ _ _ hb)
                    exact (A.trans B).trans (C.trans (SRel.of_scope_eq rfl))
                  · rename_i o1 orest
                    cases hb2 : visitStmts f (o1 :: orest)
                        (((s₄.popScope).incFsm).pushScope false) with
                    | error err => rw [hb2] at h; cases h
                    | ok s₈ =>
                        rw [hb2] at h
                        dsimp only at h
                        cases h
                        have A : SRel s s₁ := SRel.of_scope_eq (ihE _ _ _ _ hv)
                        have B : SRel s₁ s₁.incFsm := SRel.of_scope_eq rfl
                        have C : SRel s₁.incFsm s₄.popScope :=
                          srel_pushPop (ihSts _ _ _ hb)
                        have D : SRel (s₄.popScope) ((s₄.popScope).incFsm) :=
                          SRel.of_scope_eq rfl
                        have E : SRel ((s₄.popScope).incFsm) s₈.popScope :=
                          srel_pushPop (ihSts _ _ _ hb2)
                        exact ((((A.trans B).trans C).trans D).trans E).trans
                          (SRel.of_scope_eq rfl)
            all_goals cases h
  | whileS test body =>
      dsimp only at h
      split at h
      · cases h; exact srel_refl s
      · cases hv : visitExpr f test s with
        | error err => rw [hv] at h; cases h
        | ok p =>
            rw [hv] at h
            obtain ⟨tv, s₁⟩ := p
            dsimp only at h
            split at h
            · rename_i testIR
              try dsimp only at h
              cases hb : visitStmts f body ((s₁.incFsm).pushScope false) with
              | error err => rw [hb] at h; cases h
              | ok s₄ =>
                  rw [hb] at h
                  dsimp only at h
                  cases h
                  refine SRel.trans ?_ (SRel.of_scope_eq rfl)
                  refine SRel.trans ?_ (srel_clearContinueS _)
                  refine SRel.trans ?_ (srel_clearBreakS _)
                  refine SRel.trans
                    (?_ : SRel s (CState.popScope s₄)) (SRel.of_scope_eq ?_)
                  · have A : SRel s s₁ := SRel.of_scope_eq (ihE _ _ _ _ hv)
                    have B : SRel s₁ s₁.incFsm := SRel.of_scope_eq rfl
                    have C : SRel s₁.incFsm s₄.popScope :=
                      srel_pushPop (ihSts _ _ _ hb)
                    exact (A.trans B).trans C
                  · simp [foldl_patch_scope]
            all_goals cases h
  | forS target iter body =>
      dsimp only at h
      split at h
      · cases h; exact srel_refl s
      · split at h
        · rename_i fname rargs kws
          split at h
          · cases hr : lowerRangeArgs f rargs s with
            | error err => rw [hr] at h; cases h
            | ok p =>
                rw [hr] at h
                obtain ⟨trip, s₁⟩ := p
                obtain ⟨beginIR, rest2⟩ := trip
                obtain ⟨endIR, stepIR⟩ := rest2
                dsimp only at h
                split at h
                · cases h
                · rename_i itv s₂ hgv
                  split at h
                  · rename_i iterIR
                    try dsimp only at h
                    cases hb : visitStmts f body
                        (((((s₂.pushScope false).setBindS (some iterIR)
                          (.ir beginIR) none).setFsmT none none none
                          none).incFsm).incFsm) with
                    | error err => rw [hb] at h; cases h
                    | ok s₇ =>
                        rw [hb] at h
                        dsimp only at h
                        cases h
                        refine SRel.trans ?_ (SRel.of_scope_eq rfl)
                        refine SRel.trans ?_ (srel_clearContinueS _)
                        refine SRel.trans ?_ (srel_clearBreakS _)
                        refine SRel.trans
                          (?_ : SRel s (CState.popScope s₇)) (SRel.of_scope_eq ?_)
                        · refine SRel.trans
                            (SRel.of_scope_eq (ihR _ _ _ _ hr)) ?_
                          refine SRel.trans
                            (SRel.of_topVars
                              (topVars_getVariableS _ _ _ _ _ hgv)) ?_
                          exact srel_pushPop_scope rfl (ihSts _ _ _ hb)
                        · simp [foldl_patch_scope]
                  all_goals cases h
          · cases h; exact srel_refl s
        all_goals (cases h; exact srel_refl s)
  | funcDefS nm ps dfl bd =>
      dsimp only at h
      cases h
      exact SRel.of_topVars (topVars_addFunctionS s nm (ps, dfl, bd))
  | returnS vexpr =>
      dsimp only at h
      split at h
      · cases h
        exact (srel_addReturnS_none s).trans (SRel.of_scope_eq rfl)
      · rename_i ve
        split at h
        · rename_i retv hret
          split at h
          · rename_i rv
            cases hv : visitExpr f ve s with
            | error err => rw [hv] at h; cases h
            | ok p =>
                rw [hv] at h
                obtain ⟨right, s₁⟩ := p
                dsimp only at h
                cases h
                have hEq : s₁.scope = s.scope := ihE _ _ _ _ hv
                have hsc : (s₁.setBindS (some rv) right none).getReturnVariableS
                    = s.getReturnVariableS :=
                  getReturnVariableS_scope_congr hEq
                have A : SRel s s₁ := SRel.of_scope_eq hEq
                have B : SRel s₁ (s₁.setBindS (some rv) right none) :=
                  SRel.of_scope_eq rfl
                have C : SRel (s₁.setBindS (some rv) right none)
                    ((s₁.setBindS (some rv) right none).addReturnS (some right)) := by
                  refine srel_addReturnS_some _ _ ?_
                  rw [hsc, hret]
                  rfl
                exact (A.trans B).trans (C.trans (SRel.of_scope_eq rfl))
          all_goals cases h
        · rename_i hret
          cases hpair : s.getTmpVariableS with
          | mk tmp s₁ =>
              rw [hpair] at h
              dsimp only at h
              split at h
              · rename_i tv
                cases hv : visitExpr f ve
                    (s₁.setReturnVariableS (PyVal.ir tv)) with
                | error err => rw [hv] at h; cases h
                | ok p =>
                    rw [hv] at h
                    obtain ⟨right, s₃⟩ := p
                    dsimp only at h
                    cases h
                    refine srel_first_return s s₁ s₃ tv right ?_
                      (ihE _ _ _ _ hv)
                    have := topVars_getTmpVariableS s
                    rw [hpair] at this
                    exact this
              all_goals cases h
  | breakS =>
      dsimp only at h
      cases h
      exact (srel_addBreakS s).trans (SRel.of_scope_eq rfl)
  | continueS =>
      dsimp only at h
      cases h
      exact (srel_addContinueS s).trans (SRel.of_scope_eq rfl)
  | passS =>
      cases h
      exact srel_refl s
  | nonlocalS nms =>
      dsimp only at h
      cases h
      exact SRel.of_topVars (topVars_foldl_addNonlocalS nms s)
  | globalS nms =>
      dsimp only at h
      cases h
      exact SRel.of_topVars (topVars_foldl_addGlobalS nms s)
  | printS vals =>
      dsimp only at h
      cases hv : visitPrintArgs f vals [] [] s with
      | error err => rw [hv] at h; cases h
      | ok p =>
          rw [hv] at h
          obtain ⟨fa, s₁⟩ := p
          obtain ⟨fmtList, argvalues⟩ := fa
          dsimp only at h
          cases h
          have h1 : s₁.scope = s.scope := ihPA _ _ _ _ _ _ hv
          exact SRel.of_scope_eq h1
  | exprS e =>
      dsimp only at h
      cases hv : visitExpr f e s with
      | error err => rw [hv] at h; cases h
      | ok p =>
          rw [hv] at h
          obtain ⟨v, s₁⟩ := p
          dsimp only at h
          cases h
          exact SRel.of_scope_eq (ihE _ _ _ _ hv)

theorem step_PStmts (f : Nat) (ihS : PStmt f) (ihSts : PStmts f) :
    PStmts (f + 1) := by
  intro sts s s' h
  cases sts with
  | nil =>
      unfold visitStmts at h
      cases h
      exact srel_refl s
  | cons st rest =>
      unfold visitStmts at h
      cases hv : visitStmt f st s with
      | error err => rw [hv] at h; cases h
      | ok s₁ =>
          rw [hv] at h
          dsimp only at h
          exact (ihS _ _ _ hv).trans (ihSts _ _ _ h)

theorem PExpr_zero : PExpr 0 := by
  intro e s r s' h
  unfold visitExpr at h
  cases h

theorem PExprs_zero : PExprs 0 := by
  intro es s rs s' h
  cases es with
  | nil => unfold visitExprs at h; cases h; rfl
  | cons e rest => unfold visitExprs at h; cases h

theorem PKw_zero : PKw 0 := by
  intro kws s rs s' h
  cases kws with
  | nil => unfold visitKeywords at h; cases h; rfl
  | cons kv rest => unfold visitKeywords at h; cases h

theorem PBool_zero : PBool 0 := by
  intro vop vals acc s r s' h
  cases vals with
  | nil => unfold boolFoldVisit at h; cases h; rfl
  | cons v rest => unfold boolFoldVisit at h; cases h

theorem PPrintCall_zero : PPrintCall 0 := by
  intro args s r s' h
  unfold callNamePrint at h
  cases h

theorem PPrintArgs_zero : PPrintArgs 0 := by
  intro args fmt avs s r s' h
  cases args with
  | nil => unfold visitPrintArgs at h; cases h; rfl
  | cons a rest => unfold visitPrintArgs at h; cases h

theorem PTupleElts_zero : PTupleElts 0 := by
  intro elts fmt avs s r s' h
  cases elts with
  | nil => unfold printTupleElts at h; cases h; rfl
  | cons e rest => unfold printTupleElts at h; cases h

theorem PBinopMod_zero : PBinopMod 0 := by
  intro rhs s r s' h
  unfold printBinopMod at h
  cases h

theorem PInt_zero : PInt 0 := by
  intro args s r s' h
  unfold callNameInt at h
  cases h

theorem PCnf_zero : PCnf 0 := by
  intro fd avs kvs s r s' h
  unfold callNameFunction at h
  cases h

theorem PDefaults_zero : PDefaults 0 := by
  intro prs s s' h
  cases prs with
  | nil => unfold bindDefaults at h; cases h; exact topVars_refl _
  | cons pd rest => unfold bindDefaults at h; cases h

theorem PVnf_zero : PVnf 0 := by
  intro body s r s' h
  unfold visitNextFunction at h
  cases h

theorem PRange_zero : PRange 0 := by
  intro args s r s' h
  unfold lowerRangeArgs at h
  cases h

theorem PStmt_zero : PStmt 0 := by
  intro st s s' h
  unfold visitStmt at h
  cases h

theorem PStmts_zero : PStmts 0 := by
  intro sts s s' h
  cases sts with
  | nil => unfold visitStmts at h; cases h; exact srel_refl s
  | cons st rest => unfold visitStmts at h; cases h

/-- All fifteen structural properties of the lowering functions hold at
every fuel: expression lowering (and the print, int and call-inlining
helpers) restores the scope stack exactly; argument and default binding
only touches the top frame; statement lowering preserves the scope shape
and the per-frame return invariant. -/
theorem master : ∀ f : Nat, PExpr f ∧ PExprs f ∧ PKw f ∧ PBool f ∧
    PPrintCall f ∧ PPrintArgs f ∧ PTupleElts f ∧ PBinopMod f ∧ PInt f ∧
    PCnf f ∧ PDefaults f ∧ PVnf f ∧ PRange f ∧ PStmt f ∧ PStmts f := by
  intro f
  induction f with
  | zero =>
      exact ⟨PExpr_zero, PExprs_zero, PKw_zero, PBool_zero, PPrintCall_zero,
        PPrintArgs_zero, PTupleElts_zero, PBinopMod_zero, PInt_zero,
        PCnf_zero, PDefaults_zero, PVnf_zero, PRange_zero, PStmt_zero,
        PStmts_zero⟩
  | succ f ih =>
      obtain ⟨hE, hEs, hKw, hBool, hPC, hPA, hT, hBM, hInt, hCnf, hD, hV,
        hR, hS, hSts⟩ := ih
      exact ⟨step_PExpr f hEs hKw hBool hPC hInt hCnf hE,
        step_PExprs f hE hEs,
        step_PKw f hE hKw,
        step_PBool f hE hBool,
        step_PPrintCall f hPA,
        step_PPrintArgs f hE hBM hT hPA,
        step_PTupleElts f hE hT,
        step_PBinopMod f hE hEs,
        step_PInt f hEs,
        step_PCnf f hD hV,
        step_PDefaults f hE hD,
        step_PVnf f hSts,
        step_PRange f hE,
        step_PStmt f hE hPA hR hSts,
        step_PStmts f hS hSts⟩

theorem getReturnVariableS_addReturnS (x : CState) (v : Option PyVal) :
    (x.addReturnS v).getReturnVariableS = x.getReturnVariableS := by
  unfold CState.addReturnS CState.getReturnVariableS
  dsimp only
  rw [innermostCall_modify
    (fun fr => { fr with rets := fr.rets ++ [(x.fsm.current, v)] })
    (fun fr => rfl) x.scope]
  cases innermostCall x.scope <;> rfl

theorem getReturnVariableS_setReturnVariableS (x : CState) (v : PyVal)
    (hx : (innermostCall x.scope).isSome = true) :
    (x.setReturnVariableS v).getReturnVariableS = some v := by
  unfold CState.setReturnVariableS CState.getReturnVariableS
  dsimp only
  rw [innermostCall_modify (fun fr => { fr with retvar := some v })
    (fun fr => rfl) x.scope]
  cases hc : innermostCall x.scope with
  | none => rw [hc] at hx; cases hx
  | some fr => rfl

theorem innermostCall_isSome_of_topVars : ∀ {S T : List Frame},
    TopVars S T → (innermostCall T).isSome = (innermostCall S).isSome
  | [], [], _ => rfl
  | _ :: _, [], h => absurd h (by simp [TopVars])
  | [], _ :: _, h => absurd h (by simp [TopVars])
  | s₀ :: Sr, t₀ :: Tr, h => by
      obtain ⟨e, c, _, _, _, _⟩ := h
      subst e
      unfold innermostCall
      rw [c]
      by_cases hc : s₀.isCall <;> simp [hc]

/-- C3: a function call lowered by inlining pushes a fresh call frame,
binds the positional arguments, then the keyword arguments, then the
defaults of still-unbound parameters, emits one state boundary, lowers
the body, patches every unresolved return to the state following the
body, clears the break/continue/return patch lists and the return
variable, and pops the frame.  The popped state's scope stack is exactly
the caller's, so the unresolved-return list after the pop is the
caller's own: no return leaks out of the inlined call. -/
theorem call_inline_spec (f : Nat) (fd : FuncDef) (avs : List PyVal)
    (kvs : List (String × PyVal)) (s s₂ s₄ : CState) (ret : PyVal)
    (s₆ : CState)
    (hpos : bindPositional (s.pushScope true) fd.1 avs = .ok s₂)
    (hdef : bindDefaults f (zipDefaults fd.1 fd.2.1) (bindKeywords s₂ kvs)
      = .ok s₄)
    (hbody : visitNextFunction f fd.2.2
      ((s₄.setFsmT none none none none).incFsm) = .ok (ret, s₆)) :
    callNameFunction (f + 1) fd avs kvs s = .ok (ret,
      ((s₆.getUnresolvedReturnS.foldl
        (fun acc rc => acc.setFsmT (some rc.1) (some s₆.getFsmCount) none none)
        s₆).clearBreakS.clearContinueS.clearReturnS.clearReturnVariableS).popScope) ∧
    (callNameFunction (f + 1) fd avs kvs s).map (fun p => p.2.scope)
      = .ok s.scope ∧
    (callNameFunction (f + 1) fd avs kvs s).map
      (fun p => p.2.getUnresolvedReturnS) = .ok s.getUnresolvedReturnS := by
  have heq : callNameFunction (f + 1) fd avs kvs s = .ok (ret,
      ((s₆.getUnresolvedReturnS.foldl
        (fun acc rc => acc.setFsmT (some rc.1) (some s₆.getFsmCount) none none)
        s₆).clearBreakS.clearContinueS.clearReturnS.clearReturnVariableS).popScope) := by
    simp only [callNameFunction, hpos, hdef, hbody]
  have hm := (master (f + 1)).2.2.2.2.2.2.2.2.2.1
  have hscope := hm fd avs kvs s ret _ heq
  refine ⟨heq, ?_, ?_⟩
  · rw [heq]
    simp only [Except.map]
    rw [hscope]
  · rw [heq]
    simp only [Except.map]
    rw [getUnresolvedReturnS_scope_congr hscope]

/-- C3 witness: inlining `def f(x): return x` applied to `5` from the
initial state restores the caller's scope stack and leaves the caller's
(empty) unresolved-return list. -/
theorem call_inline_spec_witness :
    (callNameFunction 5 (["x"], [], [Stmt.returnS (some (Expr.nameL "x"))])
      [PyVal.ir (.intIR 5)] [] initState).map (fun p => p.2.scope)
      = .ok initState.scope ∧
    (callNameFunction 5 (["x"], [], [Stmt.returnS (some (Expr.nameL "x"))])
      [PyVal.ir (.intIR 5)] [] initState).map
      (fun p => p.2.getUnresolvedReturnS) = .ok initState.getUnresolvedReturnS :=
  have h := call_inline_spec 4 (["x"], [], [Stmt.returnS (some (Expr.nameL "x"))])
    [PyVal.ir (.intIR 5)] [] initState _ _ _ _ rfl rfl rfl
  ⟨h.2.1, h.2.2⟩

/-- C4: after lowering a function body, every frame's return-variable
slot is occupied exactly when the frame's unresolved-return log holds a
return that carried a value, and the inlined call's result is the return
variable when one was allocated and `Int(0)` otherwise.  Moreover a bare
return allocates no register, a return-with-value with the register
already allocated binds the value to that same register, and the first
return-with-value allocates the fresh temporary register and leaves it as
the frame's return variable. -/
theorem return_variable_spec (f : Nat) (body : List Stmt) (s : CState)
    (r : PyVal) (s₁ : CState)
    (h : visitNextFunction (f + 1) body s = .ok (r, s₁))
    (hinv : scopeInvP s.scope) :
    (∀ fr ∈ s₁.scope, fr.retvar.isSome = fr.rets.any (fun p => p.2.isSome)) ∧
    r = (s₁.getReturnVariableS).getD (.ir (.intIR 0)) ∧
    (∀ t, visitStmt (f + 1) (.returnS none) t
        = .ok ((t.addReturnS none).incFsm) ∧
      ((t.addReturnS none).incFsm).getReturnVariableS
        = t.getReturnVariableS) ∧
    (∀ t ve rv right t₂,
      t.getReturnVariableS = some (.ir rv) →
      visitExpr f ve t = .ok (right, t₂) →
      visitStmt (f + 1) (.returnS (some ve)) t
        = .ok (((t₂.setBindS (some rv) right none).addReturnS
            (some right)).incFsm) ∧
      (((t₂.setBindS (some rv) right none).addReturnS
          (some right)).incFsm).getReturnVariableS = some (.ir rv)) ∧
    (∀ t ve tv right t₂,
      t.getReturnVariableS = none →
      (innermostCall t.scope).isSome = true →
      (t.getTmpVariableS).1 = .ir tv →
      visitExpr f ve ((t.getTmpVariableS).2.setReturnVariableS (.ir tv))
        = .ok (right, t₂) →
      visitStmt (f + 1) (.returnS (some ve)) t
        = .ok (((t₂.setBindS (some tv) right none).addReturnS
            (some right)).incFsm) ∧
      (((t₂.setBindS (some tv) right none).addReturnS
          (some right)).incFsm).getReturnVariableS = some (.ir tv)) := by
  refine ⟨?_, ?_, ?_, ?_, ?_⟩
  · have hV := (master (f + 1)).2.2.2.2.2.2.2.2.2.2.2.1
    exact (hV body s r s₁ h).2 hinv
  · unfold visitNextFunction at h
    cases hv : visitStmts f body s with
    | error err => rw [hv] at h; cases h
    | ok s₂ =>
        rw [hv] at h
        dsimp only at h
        split at h
        · rename_i rv hrv
          cases h
          rw [hrv]
          rfl
        · rename_i hrv
          cases h
          rw [hrv]
          rfl
  · intro t
    refine ⟨?_, getReturnVariableS_addReturnS t none⟩
    simp only [visitStmt]
  · intro t ve rv right t₂ hr hve
    refine ⟨?_, ?_⟩
    · simp only [visitStmt, hr, hve]
    · rw [show (((t₂.setBindS (some rv) right none).addReturnS
          (some right)).incFsm).getReturnVariableS = t₂.getReturnVariableS from
        getReturnVariableS_addReturnS (t₂.setBindS (some rv) right none)
          (some right)]
      have h2 : t₂.scope = t.scope := (master f).1 _ _ _ _ hve
      rw [getReturnVariableS_scope_congr h2, hr]
  · intro t ve tv right t₂ hr hcf htmp hve
    cases hpair : t.getTmpVariableS with
    | mk tmp t₁ =>
        rw [hpair] at htmp hve
        dsimp only at htmp hve
        subst htmp
        refine ⟨?_, ?_⟩
        · simp only [visitStmt, hr, hpair, hve]
        · rw [show (((t₂.setBindS (some tv) right none).addReturnS
              (some right)).incFsm).getReturnVariableS = t₂.getReturnVariableS from
            getReturnVariableS_addReturnS (t₂.setBindS (some tv) right none)
              (some right)]
          have h2 : t₂.scope = (t₁.setReturnVariableS (PyVal.ir tv)).scope :=
            (master f).1 _ _ _ _ hve
          rw [getReturnVariableS_scope_congr h2]
          apply getReturnVariableS_setReturnVariableS
          have hTV : TopVars t.scope t₁.scope := by
            have h3 := topVars_getTmpVariableS t
            rw [hpair] at h3
            exact h3
          rw [innermostCall_isSome_of_topVars hTV]
          exact hcf

/-- C4 witness: lowering the empty body from the initial state (whose
only frame is the root call frame with no return variable) yields the
`Int(0)` result, and a bare return from the initial state records an
unresolved return without touching the return-variable slot. -/
theorem return_variable_spec_witness :
    PyVal.ir (.intIR 0) = (initState.getReturnVariableS).getD (.ir (.intIR 0)) ∧
    visitStmt 2 (.returnS none) initState
      = .ok ((initState.addReturnS none).incFsm) ∧
    ((initState.addReturnS none).incFsm).getReturnVariableS
      = initState.getReturnVariableS :=
  have hinv : scopeInvP initState.scope := fun fr hfr => by
    have hfr2 : fr ∈ [Frame.emptyCall] := hfr
    rcases List.mem_cons.mp hfr2 with rfl | hmem
    · exact frameOK_emptyCall
    · exact absurd hmem (List.not_mem_nil fr)
  have h := return_variable_spec 1 [] initState _ _ rfl hinv
  ⟨h.2.1, (h.2.2.1 initState).1, (h.2.2.1 initState).2⟩
